import Mathlib

/-!
Consumer attribution engine of torch-secret-analyzer.

A shallow embedding of `pkg/engines/aws_actual_consumers.go` together with the
record types of `pkg/clients/cloudtrail_client.go` it works on and the
normalizer `parseCloudtrailEvent` of that file.

Modelling conventions.

* Go strings are embedded as Lean `String`s, that is as sequences of Unicode
  scalar values; indices and lengths count characters.  All needles the program
  searches for are ASCII, so on well-formed UTF-8 text the character-level
  operations below agree with Go's byte-level ones.
* `time.Time` is embedded as an integer instant; `After` is `<` on instants.
* A nil pointer is `none`; a nil slice is told from an empty one only where the
  program tests for nil (the parsed-body resource list), and is `none` there.
  Dereferencing a nil pointer is a failure of its own kind.
* `map[string]Consumer` is an association list with unique keys.  Go iterates
  a map in an unspecified order, so results about the returned slice are stated
  through membership and counting, never through positions.
* The functions of the Go standard library the engine calls (`strings.*`,
  `regexp.QuoteMeta`, `regexp.MatchString`) are embedded next to it; the regular
  expression engine is embedded for the syntax fragment the program's patterns
  live in, and `parseRegex_pattern` shows that every pattern the program builds
  is in that fragment.
-/

namespace TorchSecret

/-! ## Package `strings` -/

/-- `strings.HasPrefix(s, prefix)`. -/
def stringsHasPrefix (s pre : String) : Bool :=
  pre.data.isPrefixOf s.data

/-- The search loop of `strings.Index`: position of the first occurrence of `sub`
in `s`, counted from `i`, or `-1`. -/
def indexFrom (sub : List Char) : List Char → Nat → Int
  | [], i => if sub.isPrefixOf [] then (i : Int) else -1
  | c :: cs, i => if sub.isPrefixOf (c :: cs) then (i : Int) else indexFrom sub cs (i + 1)

/-- `strings.Index(s, substr)`. -/
def stringsIndex (s sub : String) : Int :=
  indexFrom sub.data s.data 0

/-- `strings.Contains(s, substr)`, which Go defines as `Index(s, substr) >= 0`. -/
def stringsContains (s sub : String) : Bool :=
  decide (stringsIndex s sub ≥ 0)

/-- The pieces of `strings.Split` for a one-character separator; `cur` holds the
piece being read, reversed. -/
def splitAux (sep : Char) : List Char → List Char → List String
  | [], cur => [String.mk cur.reverse]
  | c :: cs, cur =>
    if c = sep then String.mk cur.reverse :: splitAux sep cs []
    else splitAux sep cs (c :: cur)

/-- `strings.Split(s, sep)` for a separator of one character (the engine only
splits on a colon). -/
def stringsSplit (s : String) (sep : Char) : List String :=
  splitAux sep s.data []

/-- The slice expression `s[start:]`. -/
def sliceFrom (s : String) (start : Int) : String :=
  String.mk (s.data.drop start.toNat)

/-! ## Package `regexp` -/

/-- The characters `regexp.QuoteMeta` escapes (`specialBytes` in package regexp). -/
def regexpSpecial (c : Char) : Bool :=
  c ∈ ['\\', '.', '+', '*', '?', '(', ')', '|', '[', ']', '{', '}', '^', '$']

/-- `regexp.QuoteMeta` on the characters of a string. -/
def quoteMetaChars : List Char → List Char
  | [] => []
  | c :: cs => if regexpSpecial c then '\\' :: c :: quoteMetaChars cs else c :: quoteMetaChars cs

/-- `regexp.QuoteMeta(s)`. -/
def regexpQuoteMeta (s : String) : String :=
  String.mk (quoteMetaChars s.data)

/-- A set of characters a pattern position accepts. -/
inductive CharSet where
  | single (c : Char)
  | ranges (rs : List (Char × Char))
deriving DecidableEq, Repr

/-- Does the set accept the character. -/
def CharSet.accepts : CharSet → Char → Bool
  | .single c, d => c == d
  | .ranges rs, d => rs.any (fun r => decide (r.1 ≤ d) && decide (d ≤ r.2))

/-- One item of a parsed pattern: an anchor, one character, or one-or-more. -/
inductive ReItem where
  | beginText
  | endText
  | one (m : CharSet)
  | plus (m : CharSet)
deriving DecidableEq, Repr

/-- What the pattern reader is inside of. -/
inductive ParseMode where
  | normal
  | escape
  | cls (done : List (Char × Char)) (pending : Option Char) (dash : Bool)
deriving DecidableEq, Repr

/-- State of the pattern reader; `items` is reversed. -/
structure ParseState where
  mode : ParseMode
  items : List ReItem
deriving DecidableEq, Repr

/-- ASCII letters and digits (`isalnum` of regexp/syntax). -/
def isAlnumChar (c : Char) : Bool :=
  (decide ('0' ≤ c) && decide (c ≤ '9')) || (decide ('A' ≤ c) && decide (c ≤ 'Z')) ||
    (decide ('a' ≤ c) && decide (c ≤ 'z'))

/-- One step of the pattern reader.  `none` is a pattern that is malformed or
outside the embedded fragment (groups, alternation, `.`, `*`, `?`, counted
repetition, negated or escaped classes, Perl classes). -/
def parseStep (st : ParseState) (c : Char) : Option ParseState :=
  match st.mode with
  | .normal =>
    if c = '\\' then some { st with mode := .escape }
    else if c = '^' then some { st with items := .beginText :: st.items }
    else if c = '$' then some { st with items := .endText :: st.items }
    else if c = '[' then some { st with mode := .cls [] none false }
    else if c = '+' then
      match st.items with
      | .one m :: rest => some { st with items := .plus m :: rest }
      | _ => none
    else if regexpSpecial c then none
    else some { st with items := .one (.single c) :: st.items }
  | .escape =>
    if c.val < 128 && !isAlnumChar c then
      some { mode := .normal, items := .one (.single c) :: st.items }
    else none
  | .cls done pending dash =>
    if c = ']' then
      if dash then none
      else
        match pending, done with
        | none, [] => none
        | none, _ => some { mode := .normal, items := .one (.ranges done) :: st.items }
        | some p, _ =>
          some { mode := .normal, items := .one (.ranges (done ++ [(p, p)])) :: st.items }
    else if c = '-' then
      match pending, dash with
      | some _, false => some { st with mode := .cls done pending true }
      | _, _ => none
    else if c = '\\' || c = '[' || c = '^' then none
    else
      match pending, dash with
      | some lo, true =>
        if lo ≤ c then some { st with mode := .cls (done ++ [(lo, c)]) none false } else none
      | some p, false => some { st with mode := .cls (done ++ [(p, p)]) (some c) false }
      | none, _ => some { st with mode := .cls done (some c) false }

/-- Run the pattern reader over the characters of a pattern. -/
def parseFrom : ParseState → List Char → Option ParseState
  | st, [] => some st
  | st, c :: cs =>
    match parseStep st c with
    | some st1 => parseFrom st1 cs
    | none => none

/-- `regexp.Compile`: the items of a pattern, or `none` on a parse error. -/
def parseRegex (pattern : String) : Option (List ReItem) :=
  match parseFrom { mode := .normal, items := [] } pattern.data with
  | some st => if st.mode = .normal then some st.items.reverse else none
  | none => none

/-- One or more characters of `m`, then the continuation `k` on the rest. -/
def plusLoop (m : CharSet) (k : List Char → Bool) : List Char → Bool
  | [] => false
  | c :: cs => m.accepts c && (k cs || plusLoop m k cs)

/-- Does the item sequence match a prefix of the input; `atStart` says whether
the input begins at the beginning of the text. -/
def matchHere : List ReItem → Bool → List Char → Bool
  | [], _, _ => true
  | .beginText :: rest, atStart, inp => atStart && matchHere rest atStart inp
  | .endText :: rest, atStart, inp => inp.isEmpty && matchHere rest atStart inp
  | .one _ :: _, _, [] => false
  | .one m :: rest, _, c :: cs => m.accepts c && matchHere rest false cs
  | .plus m :: rest, _, inp => plusLoop m (fun r => matchHere rest false r) inp

/-- Unanchored search: a match starting at some position of the input. -/
def searchFrom (items : List ReItem) : Bool → List Char → Bool
  | atStart, [] => matchHere items atStart []
  | atStart, c :: cs => matchHere items atStart (c :: cs) || searchFrom items false cs

/-- `regexp.MatchString(pattern, s)`: `none` is the compile error. -/
def regexpMatchString (pattern s : String) : Option Bool :=
  match parseRegex pattern with
  | some items => some (searchFrom items true s.data)
  | none => none

/-! ## Resource matcher -/

/-- `const arnPrefix` of `isResourceMatchingSecret`. -/
def arnPrefix : String := "arn:aws:secretsmanager:"

/-- `const secretPrefix` of `isResourceMatchingSecret`. -/
def secretPrefix : String := "secret:"

/-- The pattern built by `fmt.Sprintf` in `isResourceMatchingSecret`. -/
def versionPattern (secretId : String) : String :=
  "^" ++ regexpQuoteMeta secretId ++ "-[a-zA-Z0-9]+$"

/-- `isResourceMatchingSecret(resourceName, secretId)`. -/
def isResourceMatchingSecret (resourceName secretId : String) : Bool :=
  if resourceName = secretId then true
  else if stringsHasPrefix resourceName arnPrefix then
    let secretIndex := stringsIndex resourceName secretPrefix
    if secretIndex ≠ -1 then
      let start := secretIndex + (secretPrefix.length : Int)
      let identifierName := sliceFrom resourceName start
      let pattern := versionPattern secretId
      match regexpMatchString pattern identifierName with
      | some matched => matched
      | none => false
    else false
  else false

/-! ## Records of `pkg/clients/cloudtrail_client.go` -/

/-- `clients.CloudTrailEventResource`. -/
structure CloudTrailEventResource where
  ResourceType : String
  ResourceName : String
deriving DecidableEq, Repr

/-- `clients.AWSUserIdentitySessionContextAttributes`. -/
structure AWSUserIdentitySessionContextAttributes where
  MfaAuthenticated : String
  CreationDate : Option Int
deriving DecidableEq, Repr

/-- `clients.AWSUserIdentitySessionContextSessionIssuer`. -/
structure AWSUserIdentitySessionContextSessionIssuer where
  Type_ : String
  PrincipalId : String
  Arn : String
  AccountId : String
  UserName : String
deriving DecidableEq, Repr

/-- `clients.AWSUserIdentitySessionContextWebIdFederationDataFederationAttributes`. -/
structure AWSUserIdentitySessionContextWebIdFederationDataFederationAttributes where
  AppId : String
  UserId : String
deriving DecidableEq, Repr

/-- `clients.AWSUserIdentitySessionContextWebIdFederationData`. -/
structure AWSUserIdentitySessionContextWebIdFederationData where
  FederatedProvider : String
  Attributes : Option AWSUserIdentitySessionContextWebIdFederationDataFederationAttributes
deriving DecidableEq, Repr

/-- `clients.AWSUserIdentitySessionContext`. -/
structure AWSUserIdentitySessionContext where
  Attributes : Option AWSUserIdentitySessionContextAttributes
  SessionIssuer : Option AWSUserIdentitySessionContextSessionIssuer
  Ec2RoleDelivery : String
  WebIdFederationData : Option AWSUserIdentitySessionContextWebIdFederationData
deriving DecidableEq, Repr

/-- `clients.AWSUserIdentity`. -/
structure AWSUserIdentity where
  Type_ : String
  PrincipalId : String
  Arn : String
  AccountId : String
  UserName : String
  AccessKeyId : String
  InvokedBy : String
  SessionContext : Option AWSUserIdentitySessionContext
  IdentityProvider : String
deriving DecidableEq, Repr

/-- `clients.CloudtrailEvent`. -/
structure CloudtrailEvent where
  ExternalId : String
  EventName : String
  EventSource : String
  EventTime : Int
  Username : String
  Resources : List CloudTrailEventResource
  UserIdentity : AWSUserIdentity
  SourceIpAddress : String
  UserAgent : String
  RequestParameters : String
  ResponseElements : String
  EventCategory : String
deriving DecidableEq, Repr

/-! ## `pkg/engines/aws_actual_consumers.go` -/

/-- `engines.ConsumerCategory` with its two constants `HumanConsumer` and
`MachineConsumer`. -/
inductive ConsumerCategory where
  | Human
  | Machine
deriving DecidableEq, Repr

/-- `engines.Consumer`. -/
structure Consumer where
  Category : ConsumerCategory
  Type_ : String
  Name : String
  ExternalId : String
  ExternalResourceName : String
  AccessKeyId : String
  AccessedResourceAt : Int
deriving DecidableEq, Repr

/-- The inner loop of `filterEventsBySecret` over one event's resources: `true`
when it reached the `append` and `break`. -/
def resourceLoop (secretId : String) : List CloudTrailEventResource → Bool
  | [] => false
  | resource :: rest =>
    if isResourceMatchingSecret resource.ResourceName secretId then true
    else resourceLoop secretId rest

/-- `filterEventsBySecret(cloudtrailEvents, secretId)`. -/
def filterEventsBySecret (cloudtrailEvents : List CloudtrailEvent) (secretId : String) :
    List CloudtrailEvent :=
  cloudtrailEvents.foldl
    (fun filterEvents event =>
      if resourceLoop secretId event.Resources then filterEvents ++ [event] else filterEvents)
    []

/-- `extractAssumingPrincipalId(principalId)`. -/
def extractAssumingPrincipalId (principalId : String) : String :=
  let parts := stringsSplit principalId ':'
  if h : parts.length < 2 then principalId else parts[1]

/-- `classifyAssumingConsumer(userIdentity)`. -/
def classifyAssumingConsumer (userIdentity : AWSUserIdentity) : ConsumerCategory × String :=
  let roleArn :=
    match userIdentity.SessionContext with
    | some ctx =>
      match ctx.SessionIssuer with
      | some issuer => issuer.Arn
      | none => ""
    | none => ""
  let federatedProvider :=
    match userIdentity.SessionContext with
    | some ctx =>
      match ctx.WebIdFederationData with
      | some fed => fed.FederatedProvider
      | none => ""
    | none => ""
  let entityId := extractAssumingPrincipalId userIdentity.PrincipalId
  if federatedProvider ≠ "" ∧ stringsContains federatedProvider "oidc.eks." = true then
    (.Machine, "AWS EKS Service Account")
  else if stringsHasPrefix entityId "i-" then
    (.Machine, "AWS EC2 Instance")
  else if userIdentity.Type_ = "AWSService" ∨ stringsContains roleArn "/aws-service-role" = true then
    (.Machine, "AWS Service")
  else if userIdentity.Type_ = "WebIdentityUser" ∨
      (stringsContains userIdentity.Arn "sts.amazonaws.com:assumed-role" = true ∧
        stringsContains userIdentity.Arn "WebIdentity" = true) then
    (.Human, "Web Identity User")
  else if userIdentity.Type_ = "SAMLUser" ∨ stringsContains userIdentity.Arn "AWSReservedSSO" = true then
    (.Human, "AWS SAML User")
  else if userIdentity.Type_ = "IAMUser" ∨ stringsContains userIdentity.Arn ":user/" = true then
    (.Human, "AWS IAM User")
  else if userIdentity.Type_ = "IAMRole" ∨ stringsContains userIdentity.Arn ":role/" = true then
    (.Machine, "AWS IAM Role")
  else if userIdentity.Type_ = "FederatedUser" then
    (.Human, "AWS Federated User")
  else
    (.Machine, "Application")

/-- `identifyAssumedRoleAccessPrivileges(userIdentity, &consumer)`: the filled-in
consumer, or the error. -/
def identifyAssumedRoleAccessPrivileges (userIdentity : AWSUserIdentity) (consumer : Consumer) :
    Except String Consumer :=
  match userIdentity.SessionContext with
  | none => .error "missing session context for assumed role"
  | some _ =>
    let assumingPrincipalId := extractAssumingPrincipalId userIdentity.PrincipalId
    let (category, identityType) := classifyAssumingConsumer userIdentity
    .ok { consumer with
      Category := category
      Type_ := identityType
      ExternalId := assumingPrincipalId
      Name := assumingPrincipalId
      ExternalResourceName := userIdentity.Arn }

/-- The value `Consumer{AccessedResourceAt: event.EventTime}` that
`extractConsumerFromEvent` starts from, after the copy of the access-key id.
`Category` is the empty string in Go; it is overwritten on every path that
returns no error. -/
def initialConsumer (event : CloudtrailEvent) : Consumer :=
  { Category := .Machine
    Type_ := ""
    Name := ""
    ExternalId := ""
    ExternalResourceName := ""
    AccessKeyId := if event.UserIdentity.AccessKeyId ≠ "" then event.UserIdentity.AccessKeyId else ""
    AccessedResourceAt := event.EventTime }

/-- `extractConsumerFromEvent(event)`. -/
def extractConsumerFromEvent (event : CloudtrailEvent) : Except String Consumer :=
  let consumer := initialConsumer event
  let userIdentity := event.UserIdentity
  if userIdentity.Type_ = "AssumedRole" ∨ userIdentity.Type_ = "IAMRole" then
    identifyAssumedRoleAccessPrivileges userIdentity consumer
  else
    let (category, identityType) := classifyAssumingConsumer userIdentity
    .ok { consumer with
      Category := category
      Type_ := identityType
      ExternalId := userIdentity.PrincipalId
      Name := userIdentity.UserName
      ExternalResourceName := userIdentity.Arn }

/-- The Go map `map[string]Consumer` as an association list with unique keys. -/
abbrev ConsumerMap := List (String × Consumer)

/-- The map read `m[k]` with its `exists` flag. -/
def mapLookup : ConsumerMap → String → Option Consumer
  | [], _ => none
  | (k1, v) :: rest, k => if k1 = k then some v else mapLookup rest k

/-- The map write `m[k] = v`. -/
def mapInsert : ConsumerMap → String → Consumer → ConsumerMap
  | [], k, v => [(k, v)]
  | (k1, v1) :: rest, k, v => if k1 = k then (k, v) :: rest else (k1, v1) :: mapInsert rest k v

/-- One iteration of the loop of `getConsumers` over the events. -/
def getConsumersStep (consumersLastEvents : ConsumerMap) (event : CloudtrailEvent) : ConsumerMap :=
  match extractConsumerFromEvent event with
  | .error _ => consumersLastEvents
  | .ok consumer =>
    match mapLookup consumersLastEvents consumer.ExternalId with
    | none => mapInsert consumersLastEvents consumer.ExternalId consumer
    | some consumerLastEvent =>
      if consumer.AccessedResourceAt > consumerLastEvent.AccessedResourceAt then
        mapInsert consumersLastEvents consumer.ExternalId consumer
      else consumersLastEvents

/-- `getConsumers(events)`; the values of the map, listed in the order the keys
were first written. -/
def getConsumers (events : List CloudtrailEvent) : List Consumer :=
  (events.foldl getConsumersStep []).map Prod.snd

/-- `aws_cloudtrail.GetSecretValueEvent`. -/
def GetSecretValueEvent : String := "GetSecretValue"

/-- `GetAWSActualConsumers(cloudtrailEvents, secretId)`; `cloudtrailEvents` is the
read of the `EventsByName` map (a missing key reads as the empty slice). -/
def GetAWSActualConsumers (cloudtrailEvents : String → List CloudtrailEvent) (secretId : String) :
    List Consumer :=
  getConsumers (filterEventsBySecret (cloudtrailEvents GetSecretValueEvent) secretId)

/-! ## `parseCloudtrailEvent` of `pkg/clients/cloudtrail_client.go` -/

/-- `types.Resource` of the AWS SDK: a resource of the event envelope; both
fields are pointers. -/
structure SdkResource where
  ResourceName : Option String
  ResourceType : Option String
deriving DecidableEq, Repr

/-- `types.Event` of the AWS SDK: the event envelope; every scalar is a pointer. -/
structure SdkEvent where
  AccessKeyId : Option String
  CloudTrailEvent : Option String
  EventId : Option String
  EventName : Option String
  EventSource : Option String
  EventTime : Option Int
  ReadOnly : Option String
  Resources : List SdkResource
  Username : Option String
deriving DecidableEq, Repr

/-- `clients.cloudtrailRawEvent`, the parsed body.  `Resources` is `none` for the
nil slice (the key is absent or `null` in the JSON text) and `some []` for a list
that is present and empty.  `J` is the type of the decoded maps
`map[string]interface{}`. -/
structure cloudtrailRawEvent (J : Type) where
  UserIdentity : AWSUserIdentity
  Resources : Option (List CloudTrailEventResource)
  RequestParameters : J
  ResponseElements : J
  EventCategory : String
  SourceIpAddress : String
  UserAgent : String

/-- How building an event fails: with the returned error, or with the panic of a
nil pointer dereference. -/
inductive ParseFailure where
  | error (msg : String)
  | nilDereference
deriving DecidableEq, Repr

/-- `lo.FromPtr`: the pointed-to string, the empty string for nil. -/
def fromPtr (p : Option String) : String :=
  match p with
  | some v => v
  | none => ""

/-- `extractRawEvent(event)`.  The parameter `unmarshal` is `json.Unmarshal` into
a `*cloudtrailRawEvent`; its result `ok none` is the nil pointer that the JSON
text `null` leaves. -/
def extractRawEvent {J : Type}
    (unmarshal : String → Except String (Option (cloudtrailRawEvent J))) (event : SdkEvent) :
    Except ParseFailure (Option (cloudtrailRawEvent J)) :=
  match event.CloudTrailEvent with
  | none => .error .nilDereference
  | some body =>
    match unmarshal body with
    | .error err => .error (.error ("failed to deserialize raw event: " ++ err))
    | .ok rawEvent => .ok rawEvent

/-- `parseCloudtrailEvent(event)`.  The parameter `marshal` is
`jsonutil.MustMarshalToString` on the decoded maps. -/
def parseCloudtrailEvent {J : Type}
    (unmarshal : String → Except String (Option (cloudtrailRawEvent J))) (marshal : J → String)
    (event : SdkEvent) : Except ParseFailure CloudtrailEvent :=
  match extractRawEvent unmarshal event with
  | .error (.error err) => .error (.error ("could not parse cloudtrail event: " ++ err))
  | .error .nilDereference => .error .nilDereference
  | .ok none => .error .nilDereference
  | .ok (some extracedEvent) =>
    let resources : List CloudTrailEventResource :=
      if event.Resources.length > 0 ∧ extracedEvent.Resources = none then
        event.Resources.foldl
          (fun resources resource =>
            resources ++ [{ ResourceType := fromPtr resource.ResourceType
                            ResourceName := fromPtr resource.ResourceName }])
          []
      else
        match extracedEvent.Resources with
        | some parsed => parsed
        | none => []
    match event.EventId, event.EventName, event.EventSource, event.EventTime with
    | some eventId, some eventName, some eventSource, some eventTime =>
      .ok { ExternalId := eventId
            EventName := eventName
            EventSource := eventSource
            EventCategory := extracedEvent.EventCategory
            EventTime := eventTime
            Username := fromPtr event.Username
            Resources := resources
            UserIdentity := extracedEvent.UserIdentity
            SourceIpAddress := extracedEvent.SourceIpAddress
            UserAgent := extracedEvent.UserAgent
            RequestParameters := marshal extracedEvent.RequestParameters
            ResponseElements := marshal extracedEvent.ResponseElements }
    | _, _, _, _ => .error .nilDereference

/-! ## Specification vocabulary -/

/-- The text `rest` is what follows the first occurrence of `needle` in `s`. -/
def TextAfterFirst (needle s rest : List Char) : Prop :=
  ∃ pre, s = pre ++ needle ++ rest ∧
    ∀ pre1 rest1, s = pre1 ++ needle ++ rest1 → pre.length ≤ pre1.length

/-- A character of `[a-zA-Z0-9]`. -/
def IsAsciiAlnum (c : Char) : Prop :=
  ('a' ≤ c ∧ c ≤ 'z') ∨ ('A' ≤ c ∧ c ≤ 'Z') ∨ ('0' ≤ c ∧ c ≤ '9')

/-- The identifier is `secretId`, a hyphen, and one or more characters of
`[a-zA-Z0-9]`. -/
def IsVersionOf (secretId identifier : List Char) : Prop :=
  ∃ suffix, suffix ≠ [] ∧ (∀ c ∈ suffix, IsAsciiAlnum c) ∧ identifier = secretId ++ '-' :: suffix

/-- The items of a literal text. -/
def literalItems (s : List Char) : List ReItem :=
  s.map (fun c => ReItem.one (.single c))

/-- The class `[a-zA-Z0-9]` as the pattern reader builds it. -/
def alnumClass : CharSet :=
  .ranges [('a', 'z'), ('A', 'Z'), ('0', '9')]

/-- The session-issuer ARN of an identity, the empty string when the session
context or the issuer is absent. -/
def sessionIssuerArn (u : AWSUserIdentity) : String :=
  match u.SessionContext with
  | some ctx =>
    match ctx.SessionIssuer with
    | some issuer => issuer.Arn
    | none => ""
  | none => ""

/-- The federation provider of an identity, the empty string when the session
context or the federation data is absent. -/
def federationProvider (u : AWSUserIdentity) : String :=
  match u.SessionContext with
  | some ctx =>
    match ctx.WebIdFederationData with
    | some fed => fed.FederatedProvider
    | none => ""
  | none => ""

/-- The string `sub` occurs in `s`. -/
abbrev Occurs (sub s : String) : Prop := sub.data <:+: s.data

/-- The string `s` starts with `pre`. -/
abbrev StartsWith (pre s : String) : Prop := pre.data <+: s.data

/-- The text before the first `sep` (the whole text when there is none). -/
def beforeSep (sep : Char) : List Char → List Char
  | [] => []
  | c :: cs => if c = sep then [] else c :: beforeSep sep cs

/-- The text after the first `sep`, `none` when there is none. -/
def afterSep (sep : Char) : List Char → Option (List Char)
  | [] => none
  | c :: cs => if c = sep then some cs else afterSep sep cs

/-- The resolved entity id in the words of the specification: the second
colon-separated component of the principal id, or the whole principal id when it
has no colon. -/
def secondColonComponent (principalId : String) : String :=
  match afterSep ':' principalId.data with
  | some t => String.mk (beforeSep ':' t)
  | none => principalId

/-- Rule 1: the federation provider contains the EKS OIDC marker. -/
abbrev Rule1 (u : AWSUserIdentity) : Prop := Occurs "oidc.eks." (federationProvider u)

/-- Rule 2: the resolved entity id has the shape of an EC2 instance id. -/
abbrev Rule2 (u : AWSUserIdentity) : Prop := StartsWith "i-" (secondColonComponent u.PrincipalId)

/-- Rule 3: AWS service, or a session issued by a service-linked role. -/
abbrev Rule3 (u : AWSUserIdentity) : Prop :=
  u.Type_ = "AWSService" ∨ Occurs "/aws-service-role" (sessionIssuerArn u)

/-- Rule 4: web identity. -/
abbrev Rule4 (u : AWSUserIdentity) : Prop :=
  u.Type_ = "WebIdentityUser" ∨
    (Occurs "sts.amazonaws.com:assumed-role" u.Arn ∧ Occurs "WebIdentity" u.Arn)

/-- Rule 5: SAML user or an SSO reserved role. -/
abbrev Rule5 (u : AWSUserIdentity) : Prop :=
  u.Type_ = "SAMLUser" ∨ Occurs "AWSReservedSSO" u.Arn

/-- Rule 6 as the classifier tests it: the marker is `:user/`. -/
abbrev Rule6 (u : AWSUserIdentity) : Prop :=
  u.Type_ = "IAMUser" ∨ Occurs ":user/" u.Arn

/-- Rule 7 as the classifier tests it: the marker is `:role/`. -/
abbrev Rule7 (u : AWSUserIdentity) : Prop :=
  u.Type_ = "IAMRole" ∨ Occurs ":role/" u.Arn

/-- Rule 8: federated user. -/
abbrev Rule8 (u : AWSUserIdentity) : Prop := u.Type_ = "FederatedUser"

/-- The nine pairs of the decision table. -/
def decisionTablePairs : List (ConsumerCategory × String) :=
  [(.Machine, "AWS EKS Service Account"), (.Machine, "AWS EC2 Instance"),
   (.Machine, "AWS Service"), (.Human, "Web Identity User"), (.Human, "AWS SAML User"),
   (.Human, "AWS IAM User"), (.Machine, "AWS IAM Role"), (.Human, "AWS Federated User"),
   (.Machine, "Application")]

/-- An identity with every field empty and no session context. -/
def emptyIdentity : AWSUserIdentity :=
  { Type_ := "", PrincipalId := "", Arn := "", AccountId := "", UserName := "",
    AccessKeyId := "", InvokedBy := "", SessionContext := none, IdentityProvider := "" }

/-- Rule 6 in the words of the specification: the marker is `/user/`. -/
abbrev Rule6Spec (u : AWSUserIdentity) : Prop :=
  u.Type_ = "IAMUser" ∨ Occurs "/user/" u.Arn

/-- Rule 7 in the words of the specification: the marker is `/role/`. -/
abbrev Rule7Spec (u : AWSUserIdentity) : Prop :=
  u.Type_ = "IAMRole" ∨ Occurs "/role/" u.Arn

/-- An identity that has only a type tag. -/
def identityOfType (t : String) : AWSUserIdentity :=
  { emptyIdentity with Type_ := t }

/-- An identity that has only an ARN. -/
def identityOfArn (arn : String) : AWSUserIdentity :=
  { emptyIdentity with Arn := arn }

/-- A session context that has only a session issuer with the given ARN. -/
def contextIssuedBy (arn : String) : AWSUserIdentitySessionContext :=
  { Attributes := none
    SessionIssuer := some { Type_ := "Role", PrincipalId := "AROAEXAMPLE", Arn := arn,
                            AccountId := "111122223333", UserName := "" }
    Ec2RoleDelivery := ""
    WebIdFederationData := none }

/-- A session context that has only federation data with the given provider. -/
def contextFederatedBy (provider : String) : AWSUserIdentitySessionContext :=
  { Attributes := none
    SessionIssuer := none
    Ec2RoleDelivery := ""
    WebIdFederationData := some { FederatedProvider := provider, Attributes := none } }

/-- A pod identity federated through an EKS OIDC provider. -/
def eksIdentity : AWSUserIdentity :=
  { emptyIdentity with
    Type_ := "WebIdentityUser"
    PrincipalId := "AROAEXAMPLE:pod-session"
    SessionContext := some (contextFederatedBy
      "arn:aws:iam::111122223333:oidc-provider/oidc.eks.us-east-1.amazonaws.com/id/EXAMPLE") }

/-- An assumed-role identity of an EC2 instance whose session was issued by a
service-linked role. -/
def ec2ServiceRoleIdentity : AWSUserIdentity :=
  { emptyIdentity with
    Type_ := "AssumedRole"
    PrincipalId := "AROAEXAMPLE:i-0abc123"
    Arn := "arn:aws:sts::111122223333:assumed-role/aws-service-role/i-0abc123"
    SessionContext := some (contextIssuedBy
      "arn:aws:iam::111122223333:role/aws-service-role/ec2.amazonaws.com/AWSServiceRoleForEC2") }

/-- The identity is of one of the two role types that need a session context. -/
abbrev IsRoleType (u : AWSUserIdentity) : Prop :=
  u.Type_ = "AssumedRole" ∨ u.Type_ = "IAMRole"

/-- An event of a role type without session context: the event the aggregator
skips. -/
abbrev IsSkipped (e : CloudtrailEvent) : Prop :=
  IsRoleType e.UserIdentity ∧ e.UserIdentity.SessionContext = none

/-- The Consumer of an event in the words of the specification (section 4.4). -/
def derivedConsumer (e : CloudtrailEvent) : Consumer :=
  { Category := (classifyAssumingConsumer e.UserIdentity).1
    Type_ := (classifyAssumingConsumer e.UserIdentity).2
    Name :=
      if IsRoleType e.UserIdentity then secondColonComponent e.UserIdentity.PrincipalId
      else e.UserIdentity.UserName
    ExternalId :=
      if IsRoleType e.UserIdentity then secondColonComponent e.UserIdentity.PrincipalId
      else e.UserIdentity.PrincipalId
    ExternalResourceName := e.UserIdentity.Arn
    AccessKeyId := e.UserIdentity.AccessKeyId
    AccessedResourceAt := e.EventTime }

/-- An event that has only a time, an identity and resources. -/
def eventOf (t : Int) (u : AWSUserIdentity) (rs : List CloudTrailEventResource) :
    CloudtrailEvent :=
  { ExternalId := "", EventName := "GetSecretValue", EventSource := "secretsmanager.amazonaws.com",
    EventTime := t, Username := "", Resources := rs, UserIdentity := u, SourceIpAddress := "",
    UserAgent := "", RequestParameters := "", ResponseElements := "", EventCategory := "Management" }

/-- A resource of the secrets service with the given name. -/
def secretResource (name : String) : CloudTrailEventResource :=
  { ResourceType := "AWS::SecretsManager::Secret", ResourceName := name }

/-- An IAM user with an access key. -/
def iamUserIdentity : AWSUserIdentity :=
  { emptyIdentity with
    Type_ := "IAMUser"
    PrincipalId := "AIDAEXAMPLE"
    Arn := "arn:aws:iam::111122223333:user/alice"
    UserName := "alice"
    AccessKeyId := "AKIAEXAMPLE" }

/-- An IAM-role identity without session context. -/
def roleWithoutContext : AWSUserIdentity :=
  { emptyIdentity with Type_ := "IAMRole", PrincipalId := "AROAEXAMPLE:session" }

/-- The invariant of the loop of `getConsumers` after the events `done`: the keys
of the map are distinct, every entry is the Consumer of a processed event stored
under its own external id, and every Consumer derived so far is covered by an
entry of its external id that is at least as late. -/
def MapInv (done : List CloudtrailEvent) (m : ConsumerMap) : Prop :=
  (m.map Prod.fst).Nodup ∧
  (∀ p ∈ m, p.2.ExternalId = p.1 ∧ ∃ e ∈ done, extractConsumerFromEvent e = .ok p.2) ∧
  (∀ e ∈ done, ∀ c, extractConsumerFromEvent e = .ok c →
    ∃ v, mapLookup m c.ExternalId = some v ∧ c.AccessedResourceAt ≤ v.AccessedResourceAt)

/-- The same IAM user as `iamUserIdentity`, calling with another access key. -/
def iamUserSecondKey : AWSUserIdentity :=
  { iamUserIdentity with AccessKeyId := "AKIASECOND" }

/-- The envelope resource list as a list of event resources: nil names and types
read as the empty string. -/
def envelopeResources (event : SdkEvent) : List CloudTrailEventResource :=
  event.Resources.map (fun r =>
    { ResourceType := fromPtr r.ResourceType, ResourceName := fromPtr r.ResourceName })

/-- An envelope with one resource named `mydb` and every pointer set. -/
def envelopeWithResource : SdkEvent :=
  { AccessKeyId := some "AKIAEXAMPLE"
    CloudTrailEvent := some "\x7b\"eventCategory\":\"Management\",\"resources\":[]\x7d"
    EventId := some "event-1"
    EventName := some "GetSecretValue"
    EventSource := some "secretsmanager.amazonaws.com"
    EventTime := some 100
    ReadOnly := some "true"
    Resources := [{ ResourceName := some "mydb", ResourceType := some "AWS::SecretsManager::Secret" }]
    Username := some "alice" }

/-- A parsed body with the given resource list. -/
def bodyWithResources (rs : Option (List CloudTrailEventResource)) : cloudtrailRawEvent Unit :=
  { UserIdentity := iamUserIdentity
    Resources := rs
    RequestParameters := ()
    ResponseElements := ()
    EventCategory := "Management"
    SourceIpAddress := "198.51.100.7"
    UserAgent := "aws-cli" }

/-- The event `parseCloudtrailEvent` builds from an envelope whose pointers are
set and a parsed body, with the resource list left open. -/
def builtEvent {J : Type} (marshal : J → String) (event : SdkEvent) (raw : cloudtrailRawEvent J)
    (eventId eventName eventSource : String) (eventTime : Int)
    (resources : List CloudTrailEventResource) : CloudtrailEvent :=
  { ExternalId := eventId
    EventName := eventName
    EventSource := eventSource
    EventCategory := raw.EventCategory
    EventTime := eventTime
    Username := fromPtr event.Username
    Resources := resources
    UserIdentity := raw.UserIdentity
    SourceIpAddress := raw.SourceIpAddress
    UserAgent := raw.UserAgent
    RequestParameters := marshal raw.RequestParameters
    ResponseElements := marshal raw.ResponseElements }

/-- An assumed-role session of the role `MyRole`, issued by that role. -/
def assumedRoleSessionIdentity : AWSUserIdentity :=
  { emptyIdentity with
    Type_ := "AssumedRole"
    PrincipalId := "AROAEXAMPLE:my-session"
    Arn := "arn:aws:sts::111122223333:assumed-role/MyRole/my-session"
    SessionContext := some (contextIssuedBy "arn:aws:iam::111122223333:role/MyRole") }

/-- An assumed-role identity with session context and the given principal id. -/
def assumedRoleWithPrincipal (principalId : String) : AWSUserIdentity :=
  { emptyIdentity with
    Type_ := "AssumedRole"
    PrincipalId := principalId
    SessionContext := some (contextIssuedBy "arn:aws:iam::111122223333:role/MyRole") }

/-- A direct identity (an IAM user) with the given principal id. -/
def directWithPrincipal (principalId : String) : AWSUserIdentity :=
  { emptyIdentity with Type_ := "IAMUser", PrincipalId := principalId, UserName := "alice" }

/-! ## Lemmas on the string functions -/

theorem indexFrom_spec (sub : List Char) (s : List Char) (i : Nat) :
    (indexFrom sub s i = -1 ∧ ¬ sub <:+: s) ∨
    (∃ pre rest, s = pre ++ sub ++ rest ∧
      (∀ pre1 rest1, s = pre1 ++ sub ++ rest1 → pre.length ≤ pre1.length) ∧
      indexFrom sub s i = ((i + pre.length : Nat) : Int)) := by
  induction s generalizing i with
  | nil =>
    unfold indexFrom
    by_cases h : sub.isPrefixOf [] = true
    · right
      have hs : sub = [] := by
        cases sub with
        | nil => rfl
        | cons a t => simp [List.isPrefixOf] at h
      subst hs
      exact ⟨[], [], by simp, by intro p r _; simp, by simp⟩
    · left
      refine ⟨by simp [h], ?_⟩
      intro hin
      have : sub = [] := by simpa using hin
      subst this
      simp at h
  | cons c cs ih =>
    unfold indexFrom
    by_cases h : sub.isPrefixOf (c :: cs) = true
    · right
      have hp : sub <+: c :: cs := List.isPrefixOf_iff_prefix.mp h
      obtain ⟨r, hr⟩ := hp
      exact ⟨[], r, by simp [hr], by intro p r _; simp, by simp [h]⟩
    · have hnp : ¬ sub <+: c :: cs := fun hp => h (List.isPrefixOf_iff_prefix.mpr hp)
      rcases ih (i + 1) with ⟨h1, h2⟩ | ⟨pre, rest, h1, h2, h3⟩
      · left
        refine ⟨by simp [h, h1], ?_⟩
        intro hin
        rcases List.infix_cons_iff.mp hin with hp | hi
        · exact hnp hp
        · exact h2 hi
      · right
        refine ⟨c :: pre, rest, by simp [h1], ?_, ?_⟩
        · intro p1 r1 he
          cases p1 with
          | nil =>
            exfalso
            apply hnp
            exact ⟨r1, by simpa using he.symm⟩
          | cons d p1 =>
            simp only [List.cons_append, List.cons.injEq] at he
            have := h2 p1 r1 (by simpa using he.2)
            simp
            omega
        · simp only [h, Bool.false_eq_true, if_false, h3, List.length_cons]
          push_cast
          omega

/-! ## Lemmas on the pattern reader and the matcher -/

theorem parseFrom_append (st : ParseState) (a b : List Char) :
    parseFrom st (a ++ b) = (parseFrom st a).bind (fun st1 => parseFrom st1 b) := by
  induction a generalizing st with
  | nil => simp [parseFrom]
  | cons c cs ih =>
    simp only [List.cons_append, parseFrom]
    cases parseStep st c with
    | none => simp
    | some st1 => simpa using ih st1

theorem parseStep_escape_special (acc : List ReItem) (c : Char) (h : regexpSpecial c = true) :
    parseStep { mode := .escape, items := acc } c =
      some { mode := .normal, items := .one (.single c) :: acc } := by
  have hc : c ∈ ['\\', '.', '+', '*', '?', '(', ')', '|', '[', ']', '{', '}', '^', '$'] := by
    simpa [regexpSpecial] using h
  simp only [List.mem_cons, List.mem_singleton, List.not_mem_nil, or_false] at hc
  rcases hc with h | h | h | h | h | h | h | h | h | h | h | h | h | h <;> subst h <;> rfl

theorem parseStep_normal_plain (acc : List ReItem) (c : Char) (h : regexpSpecial c = false) :
    parseStep { mode := .normal, items := acc } c =
      some { mode := .normal, items := .one (.single c) :: acc } := by
  have hc : c ∉ ['\\', '.', '+', '*', '?', '(', ')', '|', '[', ']', '{', '}', '^', '$'] := by
    simpa [regexpSpecial] using h
  simp only [List.mem_cons, List.mem_singleton, List.not_mem_nil, or_false, not_or] at hc
  obtain ⟨h1, _, h3, _, _, _, _, _, h9, _, _, _, h13, h14⟩ := hc
  simp [parseStep, h1, h3, h9, h13, h14, h]

theorem parseFrom_quoteMeta (s : List Char) (acc : List ReItem) :
    parseFrom { mode := .normal, items := acc } (quoteMetaChars s) =
      some { mode := .normal, items := (literalItems s).reverse ++ acc } := by
  induction s generalizing acc with
  | nil => simp [quoteMetaChars, parseFrom, literalItems]
  | cons c cs ih =>
    unfold quoteMetaChars
    by_cases h : regexpSpecial c = true
    · have h0 : parseStep { mode := .normal, items := acc } '\\' =
          some { mode := .escape, items := acc } := by simp [parseStep]
      simp only [h, if_true, parseFrom, h0, parseStep_escape_special acc c h, ih]
      simp [literalItems]
    · have h2 : regexpSpecial c = false := by simpa using h
      simp only [h2, Bool.false_eq_true, if_false, parseFrom, parseStep_normal_plain acc c h2, ih]
      simp [literalItems]

theorem parseFrom_versionTail (acc : List ReItem) :
    parseFrom { mode := .normal, items := acc }
        ['-', '[', 'a', '-', 'z', 'A', '-', 'Z', '0', '-', '9', ']', '+', '$'] =
      some { mode := .normal,
             items := .endText :: .plus alnumClass :: .one (.single '-') :: acc } := by
  rfl

/-- Every pattern the resource matcher builds compiles, and to these items. -/
theorem parseRegex_pattern (secretId : String) :
    parseRegex (versionPattern secretId) =
      some (.beginText :: (literalItems secretId.data ++
        [.one (.single '-'), .plus alnumClass, .endText])) := by
  have hd : (versionPattern secretId).data =
      '^' :: (quoteMetaChars secretId.data ++
        ['-', '[', 'a', '-', 'z', 'A', '-', 'Z', '0', '-', '9', ']', '+', '$']) := by
    simp [versionPattern, regexpQuoteMeta, String.data_append]
  have h0 : parseStep { mode := .normal, items := [] } '^' =
      some { mode := .normal, items := [.beginText] } := by rfl
  unfold parseRegex
  rw [hd, parseFrom, h0]
  dsimp only
  rw [parseFrom_append, parseFrom_quoteMeta, Option.some_bind, parseFrom_versionTail]
  simp

theorem alnumClass_accepts (c : Char) : alnumClass.accepts c = true ↔ IsAsciiAlnum c := by
  simp [alnumClass, CharSet.accepts, IsAsciiAlnum]

theorem literalItems_append (a b : List Char) :
    literalItems (a ++ b) = literalItems a ++ literalItems b := by
  simp [literalItems]

theorem plusLoop_endText (m : CharSet) (inp : List Char) :
    plusLoop m (fun r => matchHere [.endText] false r) inp = true ↔
      inp ≠ [] ∧ ∀ c ∈ inp, m.accepts c = true := by
  induction inp with
  | nil => simp [plusLoop]
  | cons c cs ih =>
    simp only [plusLoop, Bool.and_eq_true, Bool.or_eq_true, ih]
    cases cs with
    | nil => simp [matchHere]
    | cons d ds => simp [matchHere]

theorem matchHere_literal (s : List Char) (m : CharSet) (rest : List ReItem) (b : Bool)
    (inp : List Char) :
    matchHere (literalItems s ++ .plus m :: rest) b inp = true ↔
      ∃ tail, inp = s ++ tail ∧ matchHere (.plus m :: rest) false tail = true := by
  induction s generalizing b inp with
  | nil => simp [literalItems, matchHere]
  | cons c cs ih =>
    cases inp with
    | nil => simp [literalItems, matchHere]
    | cons d ds =>
      have hd : matchHere (literalItems (c :: cs) ++ .plus m :: rest) b (d :: ds) =
          ((c == d) && matchHere (literalItems cs ++ .plus m :: rest) false ds) := rfl
      rw [hd, Bool.and_eq_true, ih false ds, beq_iff_eq]
      constructor
      · rintro ⟨rfl, t, rfl, ht⟩
        exact ⟨t, rfl, ht⟩
      · rintro ⟨t, he, ht⟩
        simp only [List.cons_append, List.cons.injEq] at he
        obtain ⟨rfl, rfl⟩ := he
        exact ⟨rfl, t, rfl, ht⟩

theorem searchFrom_beginText_false (rest : List ReItem) (inp : List Char) :
    searchFrom (.beginText :: rest) false inp = false := by
  induction inp with
  | nil => simp [searchFrom, matchHere]
  | cons c cs ih => simp [searchFrom, matchHere, ih]

theorem searchFrom_beginText (rest : List ReItem) (inp : List Char) :
    searchFrom (.beginText :: rest) true inp = matchHere rest true inp := by
  cases inp with
  | nil => simp [searchFrom, matchHere]
  | cons c cs => simp [searchFrom, matchHere, searchFrom_beginText_false]

/-- The compiled version pattern matches exactly the identifiers that are the
secret id, a hyphen and a non-empty alphanumeric suffix; it never fails to
compile. -/
theorem regexpMatchString_versionPattern (secretId identifier : String) :
    ∃ matched, regexpMatchString (versionPattern secretId) identifier = some matched ∧
      (matched = true ↔ IsVersionOf secretId.data identifier.data) := by
  refine ⟨_, by rw [regexpMatchString, parseRegex_pattern], ?_⟩
  have hi : literalItems secretId.data ++ [.one (.single '-'), .plus alnumClass, .endText] =
      literalItems (secretId.data ++ ['-']) ++ .plus alnumClass :: [.endText] := by
    simp [literalItems]
  have hp : ∀ t, matchHere (.plus alnumClass :: [.endText]) false t =
      plusLoop alnumClass (fun r => matchHere [.endText] false r) t := fun _ => rfl
  rw [searchFrom_beginText, hi, matchHere_literal]
  simp only [hp, plusLoop_endText, alnumClass_accepts, IsVersionOf]
  constructor
  · rintro ⟨t, ht, hne, hal⟩
    exact ⟨t, hne, hal, by simp [ht]⟩
  · rintro ⟨t, hne, hal, ht⟩
    exact ⟨t, by simp [ht], hne, hal⟩

theorem textAfterFirst_unique (needle s r1 r2 : List Char)
    (h1 : TextAfterFirst needle s r1) (h2 : TextAfterFirst needle s r2) : r1 = r2 := by
  obtain ⟨p1, e1, m1⟩ := h1
  obtain ⟨p2, e2, m2⟩ := h2
  have l1 := m1 p2 r2 e2
  have l2 := m2 p1 r1 e1
  have hl : p1.length = p2.length := by omega
  have he : p1 ++ (needle ++ r1) = p2 ++ (needle ++ r2) := by
    simpa [List.append_assoc] using e1.symm.trans e2
  have h3 := (List.append_inj he hl).2
  exact List.append_cancel_left h3

theorem sliceFrom_found (R : String) (pre sub rest : List Char) (h : R.data = pre ++ sub ++ rest) :
    sliceFrom R (((0 + pre.length : Nat) : Int) + ((sub.length : Nat) : Int)) = String.mk rest := by
  have e : (((0 + pre.length : Nat) : Int) + ((sub.length : Nat) : Int)).toNat =
      (pre ++ sub).length := by
    simp only [List.length_append]
    omega
  simp only [sliceFrom, e, h, List.drop_left]

/-- The resource matcher, characterised: equality, or an ARN of the secrets
service whose text after the first `secret:` is the id, a hyphen and a version
suffix. -/
theorem isResourceMatchingSecret_spec (R S : String) :
    isResourceMatchingSecret R S = true ↔
      (R = S ∨ (arnPrefix.data <+: R.data ∧
        ∃ identifier, TextAfterFirst secretPrefix.data R.data identifier ∧
          IsVersionOf S.data identifier)) := by
  unfold isResourceMatchingSecret
  by_cases h : R = S
  · simp [h]
  · simp only [h, if_false, false_or]
    by_cases hp : stringsHasPrefix R arnPrefix = true
    · have hp2 : arnPrefix.data <+: R.data := List.isPrefixOf_iff_prefix.mp hp
      simp only [hp, if_true, hp2, true_and]
      rcases indexFrom_spec secretPrefix.data R.data 0 with ⟨h1, h2⟩ | ⟨pre, rest, h1, h2, h3⟩
      · have hi : stringsIndex R secretPrefix = -1 := h1
        simp only [hi, ne_eq, not_true_eq_false, if_false, Bool.false_eq_true, false_iff]
        rintro ⟨ident, ⟨p, hp3, _⟩, _⟩
        exact h2 ⟨p, ident, hp3.symm⟩
      · have hi : stringsIndex R secretPrefix = ((0 + pre.length : Nat) : Int) := h3
        have hne : ((0 + pre.length : Nat) : Int) ≠ -1 := by omega
        have hlen : (secretPrefix.length : Int) = ((secretPrefix.data.length : Nat) : Int) := rfl
        obtain ⟨matched, hm, hiff⟩ := regexpMatchString_versionPattern S (String.mk rest)
        simp only [hi, hne, ne_eq, not_false_eq_true, if_true, hlen,
          sliceFrom_found R pre secretPrefix.data rest h1, hm]
        rw [hiff]
        constructor
        · intro hv
          exact ⟨rest, ⟨pre, h1, h2⟩, hv⟩
        · rintro ⟨ident, ht, hv⟩
          have := textAfterFirst_unique _ _ _ _ ht ⟨pre, h1, h2⟩
          subst this
          exact hv
    · have hp2 : ¬ arnPrefix.data <+: R.data := fun hh => hp (List.isPrefixOf_iff_prefix.mpr hh)
      simp [hp, hp2]

/-- C1: `isResourceMatchingSecret(R, S)` is true exactly when `R` equals `S`, or
`R` starts with `arn:aws:secretsmanager:` and the text after its first `secret:`
is `S` (taken literally, whatever characters it holds), a hyphen, and one or more
characters of `[a-zA-Z0-9]`.  The ARN `...:secret:mydb-AbCdEf` matches `mydb` and
does not match `mydb-prod`. -/
theorem C1_isResourceMatchingSecret_iff :
    (∀ R S : String, isResourceMatchingSecret R S = true ↔
      (R = S ∨ ("arn:aws:secretsmanager:".data <+: R.data ∧
        ∃ identifier, TextAfterFirst "secret:".data R.data identifier ∧
          IsVersionOf S.data identifier))) ∧
    isResourceMatchingSecret
      "arn:aws:secretsmanager:us-east-1:111122223333:secret:mydb-AbCdEf" "mydb" = true ∧
    isResourceMatchingSecret
      "arn:aws:secretsmanager:us-east-1:111122223333:secret:mydb-AbCdEf" "mydb-prod" = false :=
  ⟨fun R S => isResourceMatchingSecret_spec R S, by decide, by decide⟩

/-! ## Lemmas on the classifier -/

theorem stringsContains_iff (s sub : String) : stringsContains s sub = true ↔ Occurs sub s := by
  unfold stringsContains stringsIndex Occurs
  rcases indexFrom_spec sub.data s.data 0 with ⟨h1, h2⟩ | ⟨pre, rest, h1, _, h3⟩
  · simp [h1, h2]
  · have : sub.data <:+: s.data := ⟨pre, rest, h1.symm⟩
    simp only [h3, this, iff_true, decide_eq_true_eq]
    omega

theorem stringsHasPrefix_iff (s pre : String) : stringsHasPrefix s pre = true ↔ StartsWith pre s :=
  List.isPrefixOf_iff_prefix

theorem splitAux_eq (sep : Char) (s cur : List Char) :
    splitAux sep s cur =
      String.mk (cur.reverse ++ beforeSep sep s) ::
        (match afterSep sep s with
         | none => []
         | some t => splitAux sep t []) := by
  induction s generalizing cur with
  | nil => simp [splitAux, beforeSep, afterSep]
  | cons c cs ih =>
    by_cases h : c = sep
    · rw [splitAux, if_pos h]
      simp [beforeSep, afterSep, h]
    · rw [splitAux, if_neg h, ih]
      simp [beforeSep, afterSep, h]

/-- The function of the program computes the resolved entity id of the
specification. -/
theorem extractAssumingPrincipalId_eq (p : String) :
    extractAssumingPrincipalId p = secondColonComponent p := by
  unfold extractAssumingPrincipalId secondColonComponent stringsSplit
  cases h : afterSep ':' p.data with
  | none =>
    have e : splitAux ':' p.data [] = [String.mk (beforeSep ':' p.data)] := by
      rw [splitAux_eq, h]
      simp
    simp [e]
  | some t =>
    have e : splitAux ':' p.data [] =
        String.mk (beforeSep ':' p.data) :: String.mk (beforeSep ':' t) ::
          (match afterSep ':' t with
           | none => []
           | some t2 => splitAux ':' t2 []) := by
      rw [splitAux_eq, h]
      simp only [List.reverse_nil, List.nil_append]
      rw [splitAux_eq]
      simp
    simp [e]

theorem eksGuard_iff (fp : String) :
    (fp ≠ "" ∧ Occurs "oidc.eks." fp) ↔ Occurs "oidc.eks." fp := by
  constructor
  · exact fun h => h.2
  · intro h
    refine ⟨?_, h⟩
    intro e
    rw [e] at h
    exact absurd h (by decide)

/-- The classifier is the first-match cascade over the eight rules. -/
theorem classifyAssumingConsumer_cascade (u : AWSUserIdentity) :
    classifyAssumingConsumer u =
      if Rule1 u then (.Machine, "AWS EKS Service Account")
      else if Rule2 u then (.Machine, "AWS EC2 Instance")
      else if Rule3 u then (.Machine, "AWS Service")
      else if Rule4 u then (.Human, "Web Identity User")
      else if Rule5 u then (.Human, "AWS SAML User")
      else if Rule6 u then (.Human, "AWS IAM User")
      else if Rule7 u then (.Machine, "AWS IAM Role")
      else if Rule8 u then (.Human, "AWS Federated User")
      else (.Machine, "Application") := by
  have hc : classifyAssumingConsumer u =
      if federationProvider u ≠ "" ∧ stringsContains (federationProvider u) "oidc.eks." = true then
        (.Machine, "AWS EKS Service Account")
      else if stringsHasPrefix (extractAssumingPrincipalId u.PrincipalId) "i-" = true then
        (.Machine, "AWS EC2 Instance")
      else if u.Type_ = "AWSService" ∨
          stringsContains (sessionIssuerArn u) "/aws-service-role" = true then
        (.Machine, "AWS Service")
      else if u.Type_ = "WebIdentityUser" ∨
          (stringsContains u.Arn "sts.amazonaws.com:assumed-role" = true ∧
            stringsContains u.Arn "WebIdentity" = true) then
        (.Human, "Web Identity User")
      else if u.Type_ = "SAMLUser" ∨ stringsContains u.Arn "AWSReservedSSO" = true then
        (.Human, "AWS SAML User")
      else if u.Type_ = "IAMUser" ∨ stringsContains u.Arn ":user/" = true then
        (.Human, "AWS IAM User")
      else if u.Type_ = "IAMRole" ∨ stringsContains u.Arn ":role/" = true then
        (.Machine, "AWS IAM Role")
      else if u.Type_ = "FederatedUser" then (.Human, "AWS Federated User")
      else (.Machine, "Application") := rfl
  rw [hc]
  simp only [stringsContains_iff, stringsHasPrefix_iff, extractAssumingPrincipalId_eq,
    eksGuard_iff]

/-- C3: first match wins among the top five rules, in the order EKS service
account, EC2 instance, AWS service, web identity user, SAML user; the session-issuer
ARN and the federation provider are the empty string when absent. -/
theorem C3_first_match_wins_top_five (u : AWSUserIdentity) :
    (Rule1 u → classifyAssumingConsumer u = (.Machine, "AWS EKS Service Account")) ∧
    (¬ Rule1 u → Rule2 u → classifyAssumingConsumer u = (.Machine, "AWS EC2 Instance")) ∧
    (¬ Rule1 u → ¬ Rule2 u → Rule3 u → classifyAssumingConsumer u = (.Machine, "AWS Service")) ∧
    (¬ Rule1 u → ¬ Rule2 u → ¬ Rule3 u → Rule4 u →
      classifyAssumingConsumer u = (.Human, "Web Identity User")) ∧
    (¬ Rule1 u → ¬ Rule2 u → ¬ Rule3 u → ¬ Rule4 u → Rule5 u →
      classifyAssumingConsumer u = (.Human, "AWS SAML User")) := by
  rw [classifyAssumingConsumer_cascade]
  refine ⟨?_, ?_, ?_, ?_, ?_⟩
  · intro h1
    rw [if_pos h1]
  · intro h1 h2
    rw [if_neg h1, if_pos h2]
  · intro h1 h2 h3
    rw [if_neg h1, if_neg h2, if_pos h3]
  · intro h1 h2 h3 h4
    rw [if_neg h1, if_neg h2, if_neg h3, if_pos h4]
  · intro h1 h2 h3 h4 h5
    rw [if_neg h1, if_neg h2, if_neg h3, if_neg h4, if_pos h5]

theorem C3_first_match_wins_top_five_witness :
    classifyAssumingConsumer eksIdentity = (.Machine, "AWS EKS Service Account") ∧
    classifyAssumingConsumer ec2ServiceRoleIdentity = (.Machine, "AWS EC2 Instance") ∧
    classifyAssumingConsumer (identityOfType "AWSService") = (.Machine, "AWS Service") ∧
    classifyAssumingConsumer (identityOfType "WebIdentityUser") = (.Human, "Web Identity User") ∧
    classifyAssumingConsumer (identityOfType "SAMLUser") = (.Human, "AWS SAML User") :=
  ⟨(C3_first_match_wins_top_five eksIdentity).1 (by decide),
   (C3_first_match_wins_top_five ec2ServiceRoleIdentity).2.1 (by decide) (by decide),
   (C3_first_match_wins_top_five (identityOfType "AWSService")).2.2.1
     (by decide) (by decide) (by decide),
   (C3_first_match_wins_top_five (identityOfType "WebIdentityUser")).2.2.2.1
     (by decide) (by decide) (by decide) (by decide),
   (C3_first_match_wins_top_five (identityOfType "SAMLUser")).2.2.2.2
     (by decide) (by decide) (by decide) (by decide) (by decide)⟩

/-- C4: when the federation provider lacks `oidc.eks.` and the resolved entity id
(second colon-separated component of the principal id, or the whole principal id
when it has no colon) starts with `i-`, the classifier returns
(Machine, "AWS EC2 Instance"), whatever the type and the ARNs are. -/
theorem C4_ec2_before_service (u : AWSUserIdentity)
    (h1 : ¬ Occurs "oidc.eks." (federationProvider u))
    (h2 : StartsWith "i-" (secondColonComponent u.PrincipalId)) :
    classifyAssumingConsumer u = (.Machine, "AWS EC2 Instance") := by
  rw [classifyAssumingConsumer_cascade, if_neg h1, if_pos h2]

theorem C4_ec2_before_service_witness :
    Occurs "/aws-service-role/" (sessionIssuerArn ec2ServiceRoleIdentity) ∧
    Occurs "/aws-service-role/" ec2ServiceRoleIdentity.Arn ∧
    Rule3 ec2ServiceRoleIdentity ∧
    classifyAssumingConsumer ec2ServiceRoleIdentity = (.Machine, "AWS EC2 Instance") :=
  ⟨by decide, by decide, by decide,
   C4_ec2_before_service ec2ServiceRoleIdentity (by decide) (by decide)⟩

/-- C5, as stated, fails: an identity whose ARN is an IAM user ARN
(`arn:aws:iam::111122223333:user/alice`, which contains `:user/` and not `/user/`)
and whose type is not `IAMUser` matches none of rules 1 to 5 and is classified
(Human, "AWS IAM User"). -/
theorem C5_rule6_slash_counterexample :
    ¬ (∀ u : AWSUserIdentity, ¬ Rule1 u → ¬ Rule2 u → ¬ Rule3 u → ¬ Rule4 u → ¬ Rule5 u →
        (classifyAssumingConsumer u = (.Human, "AWS IAM User") ↔
          (u.Type_ = "IAMUser" ∨ Occurs "/user/" u.Arn))) := by
  intro h
  have h1 := h (identityOfArn "arn:aws:iam::111122223333:user/alice")
    (by decide) (by decide) (by decide) (by decide) (by decide)
  exact absurd (h1.1 (by decide)) (by decide)

/-- C5, amended: for an identity that matches none of rules 1 to 5, the classifier
returns (Human, "AWS IAM User") exactly when the type is `IAMUser` or the ARN
contains `:user/`. -/
theorem C5_rule6_colon (u : AWSUserIdentity)
    (h1 : ¬ Rule1 u) (h2 : ¬ Rule2 u) (h3 : ¬ Rule3 u) (h4 : ¬ Rule4 u) (h5 : ¬ Rule5 u) :
    classifyAssumingConsumer u = (.Human, "AWS IAM User") ↔
      (u.Type_ = "IAMUser" ∨ Occurs ":user/" u.Arn) := by
  rw [classifyAssumingConsumer_cascade, if_neg h1, if_neg h2, if_neg h3, if_neg h4, if_neg h5]
  by_cases h6 : Rule6 u
  · rw [if_pos h6]
    exact ⟨fun _ => h6, fun _ => rfl⟩
  · rw [if_neg h6]
    refine ⟨fun h => ?_, fun h => absurd h h6⟩
    split_ifs at h <;> simp at h

theorem C5_rule6_colon_witness :
    classifyAssumingConsumer (identityOfArn "arn:aws:iam::111122223333:user/alice") =
        (.Human, "AWS IAM User") ↔
      ((identityOfArn "arn:aws:iam::111122223333:user/alice").Type_ = "IAMUser" ∨
        Occurs ":user/" (identityOfArn "arn:aws:iam::111122223333:user/alice").Arn) :=
  C5_rule6_colon (identityOfArn "arn:aws:iam::111122223333:user/alice")
    (by decide) (by decide) (by decide) (by decide) (by decide)

/-- C6, as stated, fails: an identity whose ARN is an IAM role ARN
(`arn:aws:iam::111122223333:role/MyRole`, which contains `:role/` and not `/role/`)
and whose type is not `IAMRole` matches none of rules 1 to 6 (with either marker
for rule 6) and is classified (Machine, "AWS IAM Role"). -/
theorem C6_rule7_slash_counterexample :
    ¬ (∀ u : AWSUserIdentity, ¬ Rule1 u → ¬ Rule2 u → ¬ Rule3 u → ¬ Rule4 u → ¬ Rule5 u →
        ¬ Rule6Spec u → ¬ Rule6 u →
        (classifyAssumingConsumer u = (.Machine, "AWS IAM Role") ↔
          (u.Type_ = "IAMRole" ∨ Occurs "/role/" u.Arn))) := by
  intro h
  have h1 := h (identityOfArn "arn:aws:iam::111122223333:role/MyRole")
    (by decide) (by decide) (by decide) (by decide) (by decide) (by decide) (by decide)
  exact absurd (h1.1 (by decide)) (by decide)

/-- C6, amended: for an identity that matches none of rules 1 to 5 and neither has
type `IAMUser` nor `:user/` in its ARN, the classifier returns
(Machine, "AWS IAM Role") exactly when the type is `IAMRole` or the ARN contains
`:role/`. -/
theorem C6_rule7_colon (u : AWSUserIdentity)
    (h1 : ¬ Rule1 u) (h2 : ¬ Rule2 u) (h3 : ¬ Rule3 u) (h4 : ¬ Rule4 u) (h5 : ¬ Rule5 u)
    (h6 : ¬ Rule6 u) :
    classifyAssumingConsumer u = (.Machine, "AWS IAM Role") ↔
      (u.Type_ = "IAMRole" ∨ Occurs ":role/" u.Arn) := by
  rw [classifyAssumingConsumer_cascade, if_neg h1, if_neg h2, if_neg h3, if_neg h4, if_neg h5,
    if_neg h6]
  by_cases h7 : Rule7 u
  · rw [if_pos h7]
    exact ⟨fun _ => h7, fun _ => rfl⟩
  · rw [if_neg h7]
    refine ⟨fun h => ?_, fun h => absurd h h7⟩
    split_ifs at h <;> simp at h

theorem C6_rule7_colon_witness :
    classifyAssumingConsumer (identityOfArn "arn:aws:iam::111122223333:role/MyRole") =
        (.Machine, "AWS IAM Role") ↔
      ((identityOfArn "arn:aws:iam::111122223333:role/MyRole").Type_ = "IAMRole" ∨
        Occurs ":role/" (identityOfArn "arn:aws:iam::111122223333:role/MyRole").Arn) :=
  C6_rule7_colon (identityOfArn "arn:aws:iam::111122223333:role/MyRole")
    (by decide) (by decide) (by decide) (by decide) (by decide) (by decide)

/-- C7, as stated, fails in its fallback: with rules 6 and 7 as the decision table
words them (markers `/user/` and `/role/`), the identity whose only field is the ARN
`arn:aws:iam::111122223333:user/alice` matches none of the eight rules of the table
and is classified (Human, "AWS IAM User"), not (Machine, "Application"). -/
theorem C7_table_fallback_counterexample :
    ¬ ((∀ u : AWSUserIdentity, ∃ p, classifyAssumingConsumer u = p ∧ p ∈ decisionTablePairs) ∧
       (∀ u : AWSUserIdentity, ¬ Rule1 u → ¬ Rule2 u → ¬ Rule3 u → ¬ Rule4 u → ¬ Rule5 u →
         ¬ Rule6Spec u → ¬ Rule7Spec u → ¬ Rule8 u →
         classifyAssumingConsumer u = (.Machine, "Application")) ∧
       classifyAssumingConsumer emptyIdentity = (.Machine, "Application")) := by
  intro h
  have h1 := h.2.1 (identityOfArn "arn:aws:iam::111122223333:user/alice")
    (by decide) (by decide) (by decide) (by decide) (by decide) (by decide) (by decide)
    (by decide)
  exact absurd h1 (by decide)

/-- C7, amended: the classifier is total: every identity gets one pair, the pair
is one of the nine of the decision table, and an identity on which none of the
eight rules holds, rules 6 and 7 read with the markers `:user/` and `:role/` that
the classifier tests (such as the identity with every field empty and no session
context), gets (Machine, "Application"). -/
theorem C7_classification_total :
    (∀ u : AWSUserIdentity, ∃ p, classifyAssumingConsumer u = p ∧ p ∈ decisionTablePairs) ∧
    (∀ u : AWSUserIdentity, ¬ Rule1 u → ¬ Rule2 u → ¬ Rule3 u → ¬ Rule4 u → ¬ Rule5 u →
      ¬ Rule6 u → ¬ Rule7 u → ¬ Rule8 u →
      classifyAssumingConsumer u = (.Machine, "Application")) ∧
    classifyAssumingConsumer emptyIdentity = (.Machine, "Application") := by
  refine ⟨fun u => ⟨_, rfl, ?_⟩, ?_, by decide⟩
  · rw [classifyAssumingConsumer_cascade]
    split_ifs <;> simp [decisionTablePairs]
  · intro u h1 h2 h3 h4 h5 h6 h7 h8
    rw [classifyAssumingConsumer_cascade, if_neg h1, if_neg h2, if_neg h3, if_neg h4, if_neg h5,
      if_neg h6, if_neg h7, if_neg h8]

theorem C7_classification_total_witness :
    classifyAssumingConsumer (identityOfType "Root") = (.Machine, "Application") :=
  C7_classification_total.2.1 (identityOfType "Root")
    (by decide) (by decide) (by decide) (by decide) (by decide) (by decide) (by decide)
    (by decide)

/-! ## Lemmas on the aggregator -/

/-- The derivation of a Consumer, in one equation: an error exactly on a role
type without session context, otherwise the Consumer of the specification. -/
theorem extractConsumerFromEvent_eq (e : CloudtrailEvent) :
    extractConsumerFromEvent e =
      if IsSkipped e then .error "missing session context for assumed role"
      else .ok (derivedConsumer e) := by
  have hk : (if e.UserIdentity.AccessKeyId ≠ "" then e.UserIdentity.AccessKeyId else "") =
      e.UserIdentity.AccessKeyId := by
    by_cases h : e.UserIdentity.AccessKeyId = "" <;> simp [h]
  unfold extractConsumerFromEvent identifyAssumedRoleAccessPrivileges initialConsumer derivedConsumer
  by_cases hr : IsRoleType e.UserIdentity
  · by_cases hs : e.UserIdentity.SessionContext = none
    · simp [IsSkipped, hr, hs]
    · obtain ⟨ctx, hctx⟩ := Option.ne_none_iff_exists'.mp hs
      simp [IsSkipped, hr, hctx, hk, extractAssumingPrincipalId_eq]
  · simp [IsSkipped, hr, hk]

theorem resourceLoop_eq_any (secretId : String) (rs : List CloudTrailEventResource) :
    resourceLoop secretId rs =
      rs.any (fun r => isResourceMatchingSecret r.ResourceName secretId) := by
  induction rs with
  | nil => rfl
  | cons r rest ih =>
    unfold resourceLoop
    by_cases h : isResourceMatchingSecret r.ResourceName secretId = true
    · simp [h]
    · simp [h, ih]

theorem foldl_append_filter {α : Type} (p : α → Bool) (l acc : List α) :
    l.foldl (fun out x => if p x then out ++ [x] else out) acc = acc ++ l.filter p := by
  induction l generalizing acc with
  | nil => simp
  | cons x xs ih =>
    rw [List.foldl_cons, ih]
    by_cases h : p x = true
    · simp [h, List.filter_cons]
    · simp [h, List.filter_cons]

theorem filterEventsBySecret_eq (events : List CloudtrailEvent) (secretId : String) :
    filterEventsBySecret events secretId =
      events.filter (fun e =>
        e.Resources.any (fun r => isResourceMatchingSecret r.ResourceName secretId)) := by
  unfold filterEventsBySecret
  simp only [resourceLoop_eq_any]
  rw [foldl_append_filter]
  simp

/-- C9: when `extractConsumerFromEvent` succeeds, the Consumer has the event's
timestamp, the identity's access-key id, the classifier's category and type, and
the identity ARN as external resource name; for the types `AssumedRole` and
`IAMRole` external id and name are the resolved entity id, otherwise the raw
principal id and the user name.  It succeeds on every event but those of a role
type without session context. -/
theorem C9_consumer_derivation (e : CloudtrailEvent) :
    (¬ IsSkipped e → ∃ c, extractConsumerFromEvent e = .ok c) ∧
    (∀ c, extractConsumerFromEvent e = .ok c →
      c.AccessedResourceAt = e.EventTime ∧
      c.AccessKeyId = e.UserIdentity.AccessKeyId ∧
      (c.Category, c.Type_) = classifyAssumingConsumer e.UserIdentity ∧
      c.ExternalResourceName = e.UserIdentity.Arn ∧
      (IsRoleType e.UserIdentity →
        c.ExternalId = secondColonComponent e.UserIdentity.PrincipalId ∧
        c.Name = secondColonComponent e.UserIdentity.PrincipalId) ∧
      (¬ IsRoleType e.UserIdentity →
        c.ExternalId = e.UserIdentity.PrincipalId ∧ c.Name = e.UserIdentity.UserName)) := by
  rw [extractConsumerFromEvent_eq]
  by_cases hs : IsSkipped e
  · rw [if_pos hs]
    refine ⟨fun h => absurd hs h, fun c hc => ?_⟩
    cases hc
  · rw [if_neg hs]
    refine ⟨fun _ => ⟨_, rfl⟩, ?_⟩
    intro c hc
    have hc2 : derivedConsumer e = c := by simpa using hc
    subst hc2
    refine ⟨rfl, rfl, rfl, rfl, ?_, ?_⟩
    · intro hr
      simp [derivedConsumer, hr]
    · intro hr
      simp [derivedConsumer, hr]

theorem C9_consumer_derivation_witness :
    ∃ c, extractConsumerFromEvent (eventOf 100 ec2ServiceRoleIdentity []) = .ok c ∧
      c.AccessedResourceAt = 100 ∧ c.ExternalId = "i-0abc123" ∧ c.Name = "i-0abc123" ∧
      (c.Category, c.Type_) = (.Machine, "AWS EC2 Instance") :=
  have h0 : extractConsumerFromEvent (eventOf 100 ec2ServiceRoleIdentity []) =
      .ok (derivedConsumer (eventOf 100 ec2ServiceRoleIdentity [])) := by
    rw [extractConsumerFromEvent_eq, if_neg (by decide)]
  have h := (C9_consumer_derivation (eventOf 100 ec2ServiceRoleIdentity [])).2 _ h0
  ⟨derivedConsumer (eventOf 100 ec2ServiceRoleIdentity []), h0, h.1, by decide, by decide,
    by decide⟩

/-- C10: `filterEventsBySecret` keeps exactly the events one of whose resources
matches the secret id, in their order and once per occurrence; an event without
resources is not kept. -/
theorem C10_event_filter :
    (∀ (events : List CloudtrailEvent) (secretId : String),
      filterEventsBySecret events secretId =
        events.filter (fun e =>
          e.Resources.any (fun r => isResourceMatchingSecret r.ResourceName secretId))) ∧
    (∀ (events : List CloudtrailEvent) (secretId : String) (e : CloudtrailEvent),
      e ∈ filterEventsBySecret events secretId →
        e ∈ events ∧ ∃ r ∈ e.Resources, isResourceMatchingSecret r.ResourceName secretId = true) ∧
    (∀ (events : List CloudtrailEvent) (secretId : String) (e : CloudtrailEvent),
      e.Resources = [] → e ∉ filterEventsBySecret events secretId) := by
  refine ⟨filterEventsBySecret_eq, ?_, ?_⟩
  · intro events secretId e he
    rw [filterEventsBySecret_eq, List.mem_filter, List.any_eq_true] at he
    exact he
  · intro events secretId e hr he
    rw [filterEventsBySecret_eq, List.mem_filter, hr] at he
    simp at he

theorem C10_event_filter_witness :
    filterEventsBySecret
        [eventOf 1 iamUserIdentity [],
         eventOf 2 iamUserIdentity [secretResource "mydb", secretResource "other",
           secretResource "arn:aws:secretsmanager:us-east-1:111122223333:secret:mydb-AbCdEf"],
         eventOf 3 iamUserIdentity [secretResource "other"]] "mydb" =
      [eventOf 2 iamUserIdentity [secretResource "mydb", secretResource "other",
           secretResource "arn:aws:secretsmanager:us-east-1:111122223333:secret:mydb-AbCdEf"]] ∧
    eventOf 1 iamUserIdentity [] ∉
      filterEventsBySecret
        [eventOf 1 iamUserIdentity [],
         eventOf 2 iamUserIdentity [secretResource "mydb", secretResource "other",
           secretResource "arn:aws:secretsmanager:us-east-1:111122223333:secret:mydb-AbCdEf"],
         eventOf 3 iamUserIdentity [secretResource "other"]] "mydb" :=
  ⟨by decide, C10_event_filter.2.2 _ "mydb" (eventOf 1 iamUserIdentity []) rfl⟩

/-! ## Lemmas on the map of `getConsumers` -/

theorem mapLookup_none_iff (m : ConsumerMap) (k : String) :
    mapLookup m k = none ↔ k ∉ m.map Prod.fst := by
  induction m with
  | nil => simp [mapLookup]
  | cons p rest ih =>
    obtain ⟨k1, v1⟩ := p
    by_cases h : k1 = k
    · simp [mapLookup, h]
    · have h2 : ¬ k = k1 := fun e => h e.symm
      simp [mapLookup, h, h2, ih]

theorem mapLookup_mem (m : ConsumerMap) (k : String) (v : Consumer)
    (h : mapLookup m k = some v) : (k, v) ∈ m := by
  induction m with
  | nil => simp [mapLookup] at h
  | cons p rest ih =>
    obtain ⟨k1, v1⟩ := p
    by_cases hk : k1 = k
    · simp only [mapLookup, hk, if_true, Option.some.injEq] at h
      simp [hk, h]
    · simp only [mapLookup, hk, if_false] at h
      exact List.mem_cons_of_mem _ (ih h)

theorem mapLookup_insert_self (m : ConsumerMap) (k : String) (v : Consumer) :
    mapLookup (mapInsert m k v) k = some v := by
  induction m with
  | nil => simp [mapInsert, mapLookup]
  | cons p rest ih =>
    obtain ⟨k1, v1⟩ := p
    by_cases hk : k1 = k
    · simp [mapInsert, mapLookup, hk]
    · simp [mapInsert, mapLookup, hk, ih]

theorem mapLookup_insert_other (m : ConsumerMap) (k k2 : String) (v : Consumer) (h : k2 ≠ k) :
    mapLookup (mapInsert m k v) k2 = mapLookup m k2 := by
  induction m with
  | nil =>
    have h2 : ¬ k = k2 := fun e => h e.symm
    simp [mapInsert, mapLookup, h2]
  | cons p rest ih =>
    obtain ⟨k1, v1⟩ := p
    by_cases hk : k1 = k
    · have h2 : ¬ k = k2 := fun e => h e.symm
      have h3 : ¬ k1 = k2 := fun e => h2 (hk ▸ e)
      simp [mapInsert, mapLookup, hk, h2]
    · by_cases hk2 : k1 = k2
      · subst hk2
        simp [mapInsert, mapLookup, hk]
      · simp [mapInsert, mapLookup, hk, hk2, ih]

theorem mem_mapInsert (m : ConsumerMap) (k : String) (v : Consumer) (p : String × Consumer)
    (h : p ∈ mapInsert m k v) : p = (k, v) ∨ p ∈ m := by
  induction m with
  | nil => simpa [mapInsert] using h
  | cons q rest ih =>
    obtain ⟨k1, v1⟩ := q
    by_cases hk : k1 = k
    · simp only [mapInsert, hk, if_true, List.mem_cons] at h
      rcases h with h | h
      · exact Or.inl h
      · exact Or.inr (List.mem_cons_of_mem _ h)
    · simp only [mapInsert, hk, if_false, List.mem_cons] at h
      rcases h with h | h
      · exact Or.inr (by simp [h])
      · rcases ih h with h2 | h2
        · exact Or.inl h2
        · exact Or.inr (List.mem_cons_of_mem _ h2)

theorem keys_mapInsert (m : ConsumerMap) (k : String) (v : Consumer) :
    (mapInsert m k v).map Prod.fst =
      if k ∈ m.map Prod.fst then m.map Prod.fst else m.map Prod.fst ++ [k] := by
  induction m with
  | nil => simp [mapInsert]
  | cons q rest ih =>
    obtain ⟨k1, v1⟩ := q
    by_cases hk : k1 = k
    · simp [mapInsert, hk]
    · have h2 : ¬ k = k1 := fun e => hk e.symm
      simp only [mapInsert, hk, if_false, List.map_cons, ih, List.mem_cons, h2, false_or]
      split_ifs <;> simp

theorem nodup_keys_mapInsert (m : ConsumerMap) (k : String) (v : Consumer)
    (h : (m.map Prod.fst).Nodup) : ((mapInsert m k v).map Prod.fst).Nodup := by
  rw [keys_mapInsert]
  split_ifs with hk
  · exact h
  · exact List.Nodup.append h (List.nodup_singleton k) (by simpa using hk)

theorem mapInv_insert (done : List CloudtrailEvent) (m : ConsumerMap) (e : CloudtrailEvent)
    (c : Consumer) (h : MapInv done m) (he : extractConsumerFromEvent e = .ok c)
    (hl : ∀ last, mapLookup m c.ExternalId = some last →
      last.AccessedResourceAt < c.AccessedResourceAt) :
    MapInv (done ++ [e]) (mapInsert m c.ExternalId c) := by
  obtain ⟨h1, h2, h3⟩ := h
  refine ⟨nodup_keys_mapInsert m _ _ h1, ?_, ?_⟩
  · intro p hp
    rcases mem_mapInsert m _ _ p hp with hp | hp
    · subst hp
      exact ⟨rfl, e, by simp, he⟩
    · obtain ⟨ha, e1, he1, hd⟩ := h2 p hp
      exact ⟨ha, e1, by simp [he1], hd⟩
  · intro e1 he1 c1 hc1
    rcases List.mem_append.mp he1 with hin | hin
    · obtain ⟨v, hv, hle⟩ := h3 e1 hin c1 hc1
      by_cases hk : c1.ExternalId = c.ExternalId
      · rw [hk] at hv
        have := hl v hv
        exact ⟨c, by rw [hk, mapLookup_insert_self], by omega⟩
      · exact ⟨v, by rw [mapLookup_insert_other m _ _ _ hk, hv], hle⟩
    · have hee : e1 = e := by simpa using hin
      subst hee
      have hcc : c1 = c := by
        rw [he] at hc1
        exact (Except.ok.inj hc1).symm
      subst hcc
      exact ⟨c1, mapLookup_insert_self m _ _, le_refl _⟩

theorem mapInv_keep (done : List CloudtrailEvent) (m : ConsumerMap) (e : CloudtrailEvent)
    (h : MapInv done m)
    (hk : ∀ c, extractConsumerFromEvent e = .ok c →
      ∃ last, mapLookup m c.ExternalId = some last ∧
        c.AccessedResourceAt ≤ last.AccessedResourceAt) :
    MapInv (done ++ [e]) m := by
  obtain ⟨h1, h2, h3⟩ := h
  refine ⟨h1, ?_, ?_⟩
  · intro p hp
    obtain ⟨ha, e1, he1, hd⟩ := h2 p hp
    exact ⟨ha, e1, by simp [he1], hd⟩
  · intro e1 he1 c1 hc1
    rcases List.mem_append.mp he1 with hin | hin
    · exact h3 e1 hin c1 hc1
    · have hee : e1 = e := by simpa using hin
      subst hee
      exact hk c1 hc1

theorem mapInv_step (done : List CloudtrailEvent) (m : ConsumerMap) (e : CloudtrailEvent)
    (h : MapInv done m) : MapInv (done ++ [e]) (getConsumersStep m e) := by
  unfold getConsumersStep
  cases he : extractConsumerFromEvent e with
  | error msg =>
    apply mapInv_keep done m e h
    intro c hc
    rw [he] at hc
    cases hc
  | ok c =>
    cases hl : mapLookup m c.ExternalId with
    | none =>
      simp only [hl]
      apply mapInv_insert done m e c h he
      intro last hlast
      rw [hl] at hlast
      cases hlast
    | some last =>
      by_cases hgt : c.AccessedResourceAt > last.AccessedResourceAt
      · simp only [hl, hgt, if_true]
        apply mapInv_insert done m e c h he
        intro last2 hlast
        rw [hl] at hlast
        cases hlast
        exact hgt
      · simp only [hl, hgt, if_false]
        apply mapInv_keep done m e h
        intro c1 hc1
        rw [he] at hc1
        cases hc1
        exact ⟨last, hl, by omega⟩

theorem mapInv_foldl (l done : List CloudtrailEvent) (m : ConsumerMap) (h : MapInv done m) :
    MapInv (done ++ l) (l.foldl getConsumersStep m) := by
  induction l generalizing done m with
  | nil => simpa using h
  | cons x xs ih =>
    have := ih (done ++ [x]) (getConsumersStep m x) (mapInv_step done m x h)
    simpa using this

theorem mapInv_getConsumers (events : List CloudtrailEvent) :
    MapInv events (events.foldl getConsumersStep []) := by
  have h0 : MapInv [] [] := ⟨by simp, by simp, by simp⟩
  simpa using mapInv_foldl events [] [] h0

theorem filter_values_absent (m : ConsumerMap) (x : String)
    (hid : ∀ p ∈ m, p.2.ExternalId = p.1) (hx : x ∉ m.map Prod.fst) :
    (m.map Prod.snd).filter (fun r => decide (r.ExternalId = x)) = [] := by
  rw [List.filter_eq_nil_iff]
  intro r hr
  obtain ⟨p, hp, rfl⟩ := List.mem_map.mp hr
  have h1 := hid p hp
  have h2 : p.1 ≠ x := fun e => hx (List.mem_map.mpr ⟨p, hp, e⟩)
  simpa [h1] using h2

theorem filter_values_present (m : ConsumerMap) (x : String) (v : Consumer)
    (hn : (m.map Prod.fst).Nodup) (hid : ∀ p ∈ m, p.2.ExternalId = p.1)
    (hl : mapLookup m x = some v) :
    (m.map Prod.snd).filter (fun r => decide (r.ExternalId = x)) = [v] := by
  induction m with
  | nil => simp [mapLookup] at hl
  | cons q rest ih =>
    obtain ⟨k1, v1⟩ := q
    have hq : v1.ExternalId = k1 := hid (k1, v1) (by simp)
    have hrest : ∀ p ∈ rest, p.2.ExternalId = p.1 := fun p hp => hid p (List.mem_cons_of_mem _ hp)
    simp only [List.map_cons, List.nodup_cons] at hn
    by_cases hk : k1 = x
    · simp only [mapLookup, hk, if_true, Option.some.injEq] at hl
      subst hl
      have hx : x ∉ rest.map Prod.fst := hk ▸ hn.1
      simp [List.filter_cons, hq, hk, filter_values_absent rest x hrest hx]
    · simp only [mapLookup, hk, if_false] at hl
      simp [List.filter_cons, hq, hk, ih hn.2 hrest hl]

theorem getConsumersStep_skipped (m : ConsumerMap) (e : CloudtrailEvent) (h : IsSkipped e) :
    getConsumersStep m e = m := by
  unfold getConsumersStep
  rw [extractConsumerFromEvent_eq, if_pos h]

theorem foldl_filter_skipped (l : List CloudtrailEvent) (m : ConsumerMap) :
    (l.filter (fun e => decide (¬ IsSkipped e))).foldl getConsumersStep m =
      l.foldl getConsumersStep m := by
  induction l generalizing m with
  | nil => rfl
  | cons x xs ih =>
    by_cases h : IsSkipped x
    · have hf : decide (¬ IsSkipped x) = false := decide_eq_false (not_not.mpr h)
      simp only [List.filter_cons, hf, Bool.false_eq_true, if_false, List.foldl_cons,
        getConsumersStep_skipped m x h, ih]
    · have hf : decide (¬ IsSkipped x) = true := decide_eq_true h
      simp only [List.filter_cons, hf, if_true, List.foldl_cons, ih]

/-- The dedup law for one external id, general form. -/
theorem getConsumers_latest (events : List CloudtrailEvent) (x : String)
    (h : ∃ e ∈ events, ∃ c, extractConsumerFromEvent e = .ok c ∧ c.ExternalId = x) :
    ∃ c, (getConsumers events).filter (fun r => decide (r.ExternalId = x)) = [c] ∧
      c.ExternalId = x ∧
      (∃ e ∈ events, extractConsumerFromEvent e = .ok c) ∧
      (∀ e ∈ events, ∀ c1, extractConsumerFromEvent e = .ok c1 → c1.ExternalId = x →
        c1.AccessedResourceAt ≤ c.AccessedResourceAt) := by
  obtain ⟨h1, h2, h3⟩ := mapInv_getConsumers events
  obtain ⟨e0, he0, c0, hc0, hx0⟩ := h
  obtain ⟨v, hv, _⟩ := h3 e0 he0 c0 hc0
  rw [hx0] at hv
  have hp := h2 (x, v) (mapLookup_mem _ _ _ hv)
  refine ⟨v, filter_values_present _ x v h1 (fun p hp => (h2 p hp).1) hv, hp.1, hp.2, ?_⟩
  intro e he c1 hc1 hx1
  obtain ⟨v1, hv1, hle⟩ := h3 e he c1 hc1
  rw [hx1, hv] at hv1
  cases hv1
  exact hle

/-- C2: dedup law.  For every event sequence and every external id derived from
at least one event that is not skipped, the result holds exactly one Consumer
with that id; it is the Consumer derived from one of the events and no event
deriving the id is later.  If one event deriving the id is strictly later than
every other Consumer derived for the id, the result for the id is its Consumer;
so for two events with the same id the later one wins in either input order. -/
theorem C2_dedup_law :
    (∀ (events : List CloudtrailEvent) (x : String),
      (∃ e ∈ events, ∃ c, extractConsumerFromEvent e = .ok c ∧ c.ExternalId = x) →
      ∃ c, (getConsumers events).filter (fun r => decide (r.ExternalId = x)) = [c] ∧
        (∃ e ∈ events, extractConsumerFromEvent e = .ok c) ∧
        (∀ e ∈ events, ∀ c1, extractConsumerFromEvent e = .ok c1 → c1.ExternalId = x →
          c1.AccessedResourceAt ≤ c.AccessedResourceAt)) ∧
    (∀ (events : List CloudtrailEvent) (E2 : CloudtrailEvent) (c2 : Consumer),
      E2 ∈ events → extractConsumerFromEvent E2 = .ok c2 →
      (∀ e ∈ events, ∀ c1, extractConsumerFromEvent e = .ok c1 →
        c1.ExternalId = c2.ExternalId →
        c1 = c2 ∨ c1.AccessedResourceAt < c2.AccessedResourceAt) →
      (getConsumers events).filter (fun r => decide (r.ExternalId = c2.ExternalId)) = [c2]) ∧
    (∀ (E1 E2 : CloudtrailEvent) (c1 c2 : Consumer),
      extractConsumerFromEvent E1 = .ok c1 → extractConsumerFromEvent E2 = .ok c2 →
      c1.ExternalId = c2.ExternalId → c1.AccessedResourceAt < c2.AccessedResourceAt →
      getConsumers [E1, E2] = [c2] ∧ getConsumers [E2, E1] = [c2]) := by
  refine ⟨?_, ?_, ?_⟩
  · intro events x h
    obtain ⟨c, hc1, _, hc3, hc4⟩ := getConsumers_latest events x h
    exact ⟨c, hc1, hc3, hc4⟩
  · intro events E2 c2 hin h2 hmax
    obtain ⟨c, hc1, hid, ⟨e, he, hce⟩, hc4⟩ :=
      getConsumers_latest events c2.ExternalId ⟨E2, hin, c2, h2, rfl⟩
    have hle := hc4 E2 hin c2 h2 rfl
    rcases hmax e he c hce hid with heq | hlt
    · rw [hc1, heq]
    · omega
  · intro E1 E2 c1 c2 h1 h2 hid hlt
    have hn : ¬ c1.AccessedResourceAt > c2.AccessedResourceAt := by omega
    constructor
    · simp [getConsumers, getConsumersStep, h1, h2, mapLookup, mapInsert, hid, hlt]
    · simp [getConsumers, getConsumersStep, h1, h2, mapLookup, mapInsert, hid, hn]

theorem C2_dedup_law_witness :
    getConsumers [eventOf 1 iamUserIdentity [], eventOf 2 iamUserSecondKey []] =
        [derivedConsumer (eventOf 2 iamUserSecondKey [])] ∧
    getConsumers [eventOf 2 iamUserSecondKey [], eventOf 1 iamUserIdentity []] =
        [derivedConsumer (eventOf 2 iamUserSecondKey [])] :=
  C2_dedup_law.2.2 (eventOf 1 iamUserIdentity []) (eventOf 2 iamUserSecondKey [])
    (derivedConsumer (eventOf 1 iamUserIdentity []))
    (derivedConsumer (eventOf 2 iamUserSecondKey []))
    (by rw [extractConsumerFromEvent_eq, if_neg (by decide)])
    (by rw [extractConsumerFromEvent_eq, if_neg (by decide)])
    (by decide) (by decide)

/-- C8: an event of type `AssumedRole` or `IAMRole` without session context
leaves the map of the aggregator unchanged and does not stop the loop: the
Consumers returned for a sequence are those returned for the sequence with all
such events removed. -/
theorem C8_nonfatal_skip :
    (∀ (m : ConsumerMap) (e : CloudtrailEvent), IsSkipped e → getConsumersStep m e = m) ∧
    (∀ events : List CloudtrailEvent,
      getConsumers events = getConsumers (events.filter (fun e => decide (¬ IsSkipped e)))) :=
  ⟨getConsumersStep_skipped, fun events => by
    unfold getConsumers
    rw [foldl_filter_skipped]⟩

theorem C8_nonfatal_skip_witness :
    getConsumersStep [] (eventOf 1 roleWithoutContext []) = [] ∧
    getConsumers [eventOf 1 roleWithoutContext [], eventOf 2 iamUserIdentity []] =
      [derivedConsumer (eventOf 2 iamUserIdentity [])] :=
  ⟨C8_nonfatal_skip.1 [] (eventOf 1 roleWithoutContext []) (by decide), by decide⟩

/-! ## The normalizer -/

theorem foldl_append_map {α β : Type} (f : α → β) (l : List α) (acc : List β) :
    l.foldl (fun out x => out ++ [f x]) acc = acc ++ l.map f := by
  induction l generalizing acc with
  | nil => simp
  | cons x xs ih => simp [List.foldl_cons, ih]

/-- The normalizer on an envelope whose pointers are set and whose body decodes:
the resource list is the parsed one when that is not nil, else the envelope's. -/
theorem parseCloudtrailEvent_eq {J : Type}
    (unmarshal : String → Except String (Option (cloudtrailRawEvent J))) (marshal : J → String)
    (event : SdkEvent) (body : String) (raw : cloudtrailRawEvent J)
    (eventId eventName eventSource : String) (eventTime : Int)
    (hb : event.CloudTrailEvent = some body) (hu : unmarshal body = .ok (some raw))
    (h1 : event.EventId = some eventId) (h2 : event.EventName = some eventName)
    (h3 : event.EventSource = some eventSource) (h4 : event.EventTime = some eventTime) :
    parseCloudtrailEvent unmarshal marshal event =
      .ok (builtEvent marshal event raw eventId eventName eventSource eventTime
        (match raw.Resources with
         | some parsed => parsed
         | none => envelopeResources event)) := by
  have hx : extractRawEvent unmarshal event = .ok (some raw) := by
    simp [extractRawEvent, hb, hu]
  unfold parseCloudtrailEvent
  rw [hx]
  simp only [h1, h2, h3, h4, builtEvent]
  cases hr : raw.Resources with
  | some parsed => simp
  | none =>
    by_cases hl : event.Resources.length > 0
    · simp [hl, envelopeResources, foldl_append_map]
    · have he : event.Resources = [] := by
        cases hres : event.Resources with
        | nil => rfl
        | cons a t => simp [hres] at hl
      simp [he, envelopeResources]

theorem parseCloudtrailEvent_ok_pointers {J : Type}
    (unmarshal : String → Except String (Option (cloudtrailRawEvent J))) (marshal : J → String)
    (event : SdkEvent) (out : CloudtrailEvent)
    (h : parseCloudtrailEvent unmarshal marshal event = .ok out) :
    ∃ eventId eventName eventSource eventTime,
      event.EventId = some eventId ∧ event.EventName = some eventName ∧
      event.EventSource = some eventSource ∧ event.EventTime = some eventTime := by
  obtain ⟨ak, ct, id, nm, src, tm, ro, rs, un⟩ := event
  cases id <;> cases nm <;> cases src <;> cases tm <;>
    first
    | exact ⟨_, _, _, _, rfl, rfl, rfl, rfl⟩
    | (unfold parseCloudtrailEvent at h; split at h <;> simp at h)

/-- C11, as stated, fails: for an envelope with one resource whose parsed body
holds a resource list that is present and empty, the event built has no resource,
not the envelope's. -/
theorem C11_empty_parsed_list_counterexample :
    ¬ (∀ (unmarshal : String → Except String (Option (cloudtrailRawEvent Unit)))
        (marshal : Unit → String) (event : SdkEvent) (body : String)
        (raw : cloudtrailRawEvent Unit) (out : CloudtrailEvent),
        event.CloudTrailEvent = some body → unmarshal body = .ok (some raw) →
        parseCloudtrailEvent unmarshal marshal event = .ok out →
        out.Resources =
          (match raw.Resources with
           | some (r :: rs) => r :: rs
           | some [] => envelopeResources event
           | none => envelopeResources event)) := by
  intro h
  have hp := parseCloudtrailEvent_eq (fun _ => .ok (some (bodyWithResources (some []))))
    (fun _ => "null") envelopeWithResource _ (bodyWithResources (some []))
    "event-1" "GetSecretValue" "secretsmanager.amazonaws.com" 100 rfl rfl rfl rfl rfl rfl
  have h1 := h _ _ envelopeWithResource _ (bodyWithResources (some [])) _ rfl rfl hp
  revert h1
  decide

/-- C11, amended: whenever `parseCloudtrailEvent` builds an event from a body
that decodes, its resource list is the parsed-body list when that list is present
(not nil), also when it is empty, and the envelope list when the parsed-body list
is absent; it is never a merge.  It builds an event whenever the four pointers it
dereferences are set. -/
theorem C11_resources_reconciled {J : Type}
    (unmarshal : String → Except String (Option (cloudtrailRawEvent J))) (marshal : J → String)
    (event : SdkEvent) (body : String) (raw : cloudtrailRawEvent J)
    (hb : event.CloudTrailEvent = some body) (hu : unmarshal body = .ok (some raw)) :
    (∀ out, parseCloudtrailEvent unmarshal marshal event = .ok out →
      out.Resources =
        (match raw.Resources with
         | some parsed => parsed
         | none => envelopeResources event)) ∧
    (event.EventId ≠ none → event.EventName ≠ none → event.EventSource ≠ none →
      event.EventTime ≠ none → ∃ out, parseCloudtrailEvent unmarshal marshal event = .ok out) := by
  constructor
  · intro out h
    obtain ⟨eventId, eventName, eventSource, eventTime, h1, h2, h3, h4⟩ :=
      parseCloudtrailEvent_ok_pointers unmarshal marshal event out h
    rw [parseCloudtrailEvent_eq unmarshal marshal event body raw _ _ _ _ hb hu h1 h2 h3 h4] at h
    have h5 := Except.ok.inj h
    rw [← h5]
    rfl
  · intro h1 h2 h3 h4
    obtain ⟨eventId, h1⟩ := Option.ne_none_iff_exists'.mp h1
    obtain ⟨eventName, h2⟩ := Option.ne_none_iff_exists'.mp h2
    obtain ⟨eventSource, h3⟩ := Option.ne_none_iff_exists'.mp h3
    obtain ⟨eventTime, h4⟩ := Option.ne_none_iff_exists'.mp h4
    exact ⟨_, parseCloudtrailEvent_eq unmarshal marshal event body raw _ _ _ _ hb hu h1 h2 h3 h4⟩

theorem C11_resources_reconciled_witness :
    (∀ out, parseCloudtrailEvent (fun _ => .ok (some (bodyWithResources none))) (fun _ => "null")
        envelopeWithResource = .ok out →
      out.Resources = [secretResource "mydb"]) ∧
    (∀ out, parseCloudtrailEvent
        (fun _ => .ok (some (bodyWithResources (some [secretResource "other"]))))
        (fun _ => "null") envelopeWithResource = .ok out →
      out.Resources = [secretResource "other"]) ∧
    (∀ out, parseCloudtrailEvent (fun _ => .ok (some (bodyWithResources (some []))))
        (fun _ => "null") envelopeWithResource = .ok out →
      out.Resources = []) ∧
    ∃ out, parseCloudtrailEvent (fun _ => .ok (some (bodyWithResources none))) (fun _ => "null")
        envelopeWithResource = .ok out :=
  ⟨(C11_resources_reconciled (fun _ => .ok (some (bodyWithResources none))) (fun _ => "null")
      envelopeWithResource _ (bodyWithResources none) rfl rfl).1,
   (C11_resources_reconciled
      (fun _ => .ok (some (bodyWithResources (some [secretResource "other"]))))
      (fun _ => "null") envelopeWithResource _ (bodyWithResources (some [secretResource "other"]))
      rfl rfl).1,
   (C11_resources_reconciled (fun _ => .ok (some (bodyWithResources (some [])))) (fun _ => "null")
      envelopeWithResource _ (bodyWithResources (some [])) rfl rfl).1,
   (C11_resources_reconciled (fun _ => .ok (some (bodyWithResources none))) (fun _ => "null")
      envelopeWithResource _ (bodyWithResources none) rfl rfl).2
      (by decide) (by decide) (by decide) (by decide)⟩

/-! ## Further properties of the matcher and the classifier -/

/-- A resource name other than the secret id that is less than nine characters
longer than it does not match: an ARN match needs room for `secret:`, the hyphen
and one character of suffix. -/
theorem isResourceMatchingSecret_short (R S : String) (hne : R ≠ S)
    (hlen : R.data.length < S.data.length + 9) : isResourceMatchingSecret R S = false := by
  cases hm : isResourceMatchingSecret R S with
  | false => rfl
  | true =>
    exfalso
    rcases (isResourceMatchingSecret_spec R S).mp hm with h | ⟨_, ident, ⟨pre, hR, _⟩, suffix, hs, _, hi⟩
    · exact hne h
    · have hl := congrArg List.length hR
      have hsl : 0 < suffix.length := List.length_pos.mpr hs
      have hsec : secretPrefix.data.length = 7 := rfl
      rw [hi] at hl
      simp only [List.length_append, List.length_cons, hsec] at hl
      omega

/-- C12: a resource name that is the secret id with one character appended (`X`
or any other) never matches the secret id, also when the id is itself an ARN of
the secrets service containing `secret:`. -/
theorem C12_appended_character_never_matches :
    (∀ S : String, isResourceMatchingSecret (S ++ "X") S = false) ∧
    (∀ (S : String) (c : Char), isResourceMatchingSecret (S ++ String.singleton c) S = false) ∧
    isResourceMatchingSecret
      "arn:aws:secretsmanager:us-east-1:111122223333:secret:mydbX"
      "arn:aws:secretsmanager:us-east-1:111122223333:secret:mydb" = false := by
  have key : ∀ (S : String) (c : Char),
      isResourceMatchingSecret (S ++ String.singleton c) S = false := by
    intro S c
    have hd : (S ++ String.singleton c).data = S.data ++ [c] := by
      simp [String.data_append, String.singleton]
    apply isResourceMatchingSecret_short
    · intro h
      have := congrArg (fun t : String => t.data.length) h
      simp [hd] at this
    · rw [hd]
      simp
  exact ⟨fun S => key S 'X', key, by decide⟩

/-- C15: for an identity of type `AssumedRole` whose federation provider lacks
`oidc.eks.`, whose resolved entity id does not start with `i-`, whose
session-issuer ARN lacks `/aws-service-role` and whose own ARN contains none of
`WebIdentity`, `AWSReservedSSO`, `:user/` and `:role/`, the classifier returns
(Machine, "Application"): the `:role/` of the session issuer's ARN is not looked
at. -/
theorem C15_issuer_arn_not_a_role_marker (u : AWSUserIdentity)
    (ht : u.Type_ = "AssumedRole")
    (h1 : ¬ Occurs "oidc.eks." (federationProvider u))
    (h2 : ¬ StartsWith "i-" (secondColonComponent u.PrincipalId))
    (h3 : ¬ Occurs "/aws-service-role" (sessionIssuerArn u))
    (h4 : ¬ Occurs "WebIdentity" u.Arn)
    (h5 : ¬ Occurs "AWSReservedSSO" u.Arn)
    (h6 : ¬ Occurs ":user/" u.Arn)
    (h7 : ¬ Occurs ":role/" u.Arn) :
    classifyAssumingConsumer u = (.Machine, "Application") := by
  have r3 : ¬ Rule3 u := by
    rintro (h | h)
    · rw [ht] at h; exact absurd h (by decide)
    · exact h3 h
  have r4 : ¬ Rule4 u := by
    rintro (h | h)
    · rw [ht] at h; exact absurd h (by decide)
    · exact h4 h.2
  have r5 : ¬ Rule5 u := by
    rintro (h | h)
    · rw [ht] at h; exact absurd h (by decide)
    · exact h5 h
  have r6 : ¬ Rule6 u := by
    rintro (h | h)
    · rw [ht] at h; exact absurd h (by decide)
    · exact h6 h
  have r7 : ¬ Rule7 u := by
    rintro (h | h)
    · rw [ht] at h; exact absurd h (by decide)
    · exact h7 h
  have r8 : ¬ Rule8 u := by
    intro h
    rw [Rule8, ht] at h
    exact absurd h (by decide)
  rw [classifyAssumingConsumer_cascade, if_neg h1, if_neg h2, if_neg r3, if_neg r4, if_neg r5,
    if_neg r6, if_neg r7, if_neg r8]

theorem C15_issuer_arn_not_a_role_marker_witness :
    Occurs ":role/" (sessionIssuerArn assumedRoleSessionIdentity) ∧
    classifyAssumingConsumer assumedRoleSessionIdentity = (.Machine, "Application") :=
  ⟨by decide,
   C15_issuer_arn_not_a_role_marker assumedRoleSessionIdentity rfl (by decide) (by decide)
     (by decide) (by decide) (by decide) (by decide) (by decide)⟩

/-! ## Replacement and the dedup key -/

theorem getConsumersStep_lookup_stable (m : ConsumerMap) (e : CloudtrailEvent) (x : String)
    (c : Consumer) (hl : mapLookup m x = some c)
    (hle : ∀ c1, extractConsumerFromEvent e = .ok c1 → c1.ExternalId = x →
      c1.AccessedResourceAt ≤ c.AccessedResourceAt) :
    mapLookup (getConsumersStep m e) x = some c := by
  unfold getConsumersStep
  cases he : extractConsumerFromEvent e with
  | error msg => exact hl
  | ok c1 =>
    by_cases hid : c1.ExternalId = x
    · have h1 := hle c1 he hid
      have hn : ¬ c1.AccessedResourceAt > c.AccessedResourceAt := by omega
      simp only [hid, hl, hn, if_false]
    · have hx : x ≠ c1.ExternalId := fun h => hid h.symm
      cases hl1 : mapLookup m c1.ExternalId with
      | none =>
        simp only [hl1]
        rw [mapLookup_insert_other m _ _ _ hx, hl]
      | some last =>
        simp only [hl1]
        split_ifs
        · rw [mapLookup_insert_other m _ _ _ hx, hl]
        · exact hl

theorem foldl_lookup_stable (l : List CloudtrailEvent) (m : ConsumerMap) (x : String)
    (c : Consumer) (hl : mapLookup m x = some c)
    (hle : ∀ e ∈ l, ∀ c1, extractConsumerFromEvent e = .ok c1 → c1.ExternalId = x →
      c1.AccessedResourceAt ≤ c.AccessedResourceAt) :
    mapLookup (l.foldl getConsumersStep m) x = some c := by
  induction l generalizing m with
  | nil => exact hl
  | cons e rest ih =>
    rw [List.foldl_cons]
    apply ih
    · exact getConsumersStep_lookup_stable m e x c hl (hle e (by simp))
    · intro e1 he1
      exact hle e1 (List.mem_cons_of_mem _ he1)

theorem getConsumersStep_lookup_new (done : List CloudtrailEvent) (m : ConsumerMap)
    (e : CloudtrailEvent) (c : Consumer) (hinv : MapInv done m)
    (he : extractConsumerFromEvent e = .ok c)
    (hlt : ∀ e1 ∈ done, ∀ c1, extractConsumerFromEvent e1 = .ok c1 →
      c1.ExternalId = c.ExternalId → c1.AccessedResourceAt < c.AccessedResourceAt) :
    mapLookup (getConsumersStep m e) c.ExternalId = some c := by
  unfold getConsumersStep
  rw [he]
  cases hl : mapLookup m c.ExternalId with
  | none =>
    simp only [hl]
    exact mapLookup_insert_self m _ _
  | some last =>
    obtain ⟨hid, e1, he1, hd⟩ := hinv.2.1 _ (mapLookup_mem m _ _ hl)
    have hgt : c.AccessedResourceAt > last.AccessedResourceAt := hlt e1 he1 last hd hid
    simp only [hl, hgt, if_true]
    exact mapLookup_insert_self m _ _

/-- The Consumer kept for an id is that of the first event attaining the latest
timestamp among the events deriving the id. -/
theorem getConsumers_first_latest (pre post : List CloudtrailEvent) (e : CloudtrailEvent)
    (c : Consumer) (he : extractConsumerFromEvent e = .ok c)
    (hpre : ∀ e1 ∈ pre, ∀ c1, extractConsumerFromEvent e1 = .ok c1 →
      c1.ExternalId = c.ExternalId → c1.AccessedResourceAt < c.AccessedResourceAt)
    (hpost : ∀ e1 ∈ post, ∀ c1, extractConsumerFromEvent e1 = .ok c1 →
      c1.ExternalId = c.ExternalId → c1.AccessedResourceAt ≤ c.AccessedResourceAt) :
    (getConsumers (pre ++ e :: post)).filter (fun r => decide (r.ExternalId = c.ExternalId)) =
      [c] := by
  obtain ⟨h1, h2, _⟩ := mapInv_getConsumers (pre ++ e :: post)
  have hnew := getConsumersStep_lookup_new pre (pre.foldl getConsumersStep []) e c
    (mapInv_getConsumers pre) he hpre
  have hfin := foldl_lookup_stable post _ c.ExternalId c hnew hpost
  have hfold : (pre ++ e :: post).foldl getConsumersStep [] =
      post.foldl getConsumersStep (getConsumersStep (pre.foldl getConsumersStep []) e) := by
    rw [List.foldl_append, List.foldl_cons]
  rw [← hfold] at hfin
  exact filter_values_present _ _ _ h1 (fun p hp => (h2 p hp).1) hfin

/-- C13: a stored Consumer is replaced only by an event that is strictly later;
so when several events derive one external id with equal, maximal timestamps, the
Consumer kept for the id is the one derived from the first of them. -/
theorem C13_strictly_later_replacement :
    (∀ (m : ConsumerMap) (e : CloudtrailEvent) (c last : Consumer),
      extractConsumerFromEvent e = .ok c → mapLookup m c.ExternalId = some last →
      c.AccessedResourceAt ≤ last.AccessedResourceAt → getConsumersStep m e = m) ∧
    (∀ (pre post : List CloudtrailEvent) (e : CloudtrailEvent) (c : Consumer),
      extractConsumerFromEvent e = .ok c →
      (∀ e1 ∈ pre, ∀ c1, extractConsumerFromEvent e1 = .ok c1 →
        c1.ExternalId = c.ExternalId → c1.AccessedResourceAt < c.AccessedResourceAt) →
      (∀ e1 ∈ post, ∀ c1, extractConsumerFromEvent e1 = .ok c1 →
        c1.ExternalId = c.ExternalId → c1.AccessedResourceAt ≤ c.AccessedResourceAt) →
      (getConsumers (pre ++ e :: post)).filter
        (fun r => decide (r.ExternalId = c.ExternalId)) = [c]) := by
  refine ⟨?_, fun pre post e c he hpre hpost => getConsumers_first_latest pre post e c he hpre hpost⟩
  intro m e c last he hl hle
  have hn : ¬ c.AccessedResourceAt > last.AccessedResourceAt := by omega
  unfold getConsumersStep
  rw [he]
  simp only [hl, hn, if_false]

theorem C13_strictly_later_replacement_witness :
    (getConsumers ([eventOf 1 iamUserIdentity []] ++
        eventOf 5 iamUserSecondKey [] ::
          [eventOf 5 iamUserIdentity [], eventOf 3 iamUserIdentity []])).filter
      (fun r => decide (r.ExternalId =
        (derivedConsumer (eventOf 5 iamUserSecondKey [])).ExternalId)) =
      [derivedConsumer (eventOf 5 iamUserSecondKey [])] :=
  C13_strictly_later_replacement.2 [eventOf 1 iamUserIdentity []]
    [eventOf 5 iamUserIdentity [], eventOf 3 iamUserIdentity []]
    (eventOf 5 iamUserSecondKey []) (derivedConsumer (eventOf 5 iamUserSecondKey []))
    (by rw [extractConsumerFromEvent_eq, if_neg (by decide)])
    (by
      intro e1 he1 c1 hc1 _
      simp only [List.mem_singleton] at he1
      subst he1
      rw [extractConsumerFromEvent_eq, if_neg (by decide)] at hc1
      cases hc1
      decide)
    (by
      intro e1 he1 c1 hc1 _
      simp only [List.mem_cons, List.mem_singleton, List.not_mem_nil, or_false] at he1
      rcases he1 with he1 | he1 <;> subst he1 <;>
        rw [extractConsumerFromEvent_eq, if_neg (by decide)] at hc1 <;> cases hc1 <;> decide)

theorem afterSep_append (sep : Char) (a t : List Char) (h : sep ∉ a) :
    afterSep sep (a ++ sep :: t) = some t := by
  induction a with
  | nil => simp [afterSep]
  | cons c cs ih =>
    have hc : c ≠ sep := fun e => h (by simp [e])
    have hm : sep ∉ cs := fun e => h (List.mem_cons_of_mem _ e)
    simp [afterSep, hc, ih hm]

theorem beforeSep_of_not_mem (sep : Char) (s : List Char) (h : sep ∉ s) :
    beforeSep sep s = s := by
  induction s with
  | nil => rfl
  | cons c cs ih =>
    have hc : c ≠ sep := fun e => h (by simp [e])
    have hm : sep ∉ cs := fun e => h (List.mem_cons_of_mem _ e)
    simp [beforeSep, hc, ih hm]

/-- The resolved entity id of a compound principal id `A:s` is `s`. -/
theorem secondColonComponent_compound (A s : String) (hA : ':' ∉ A.data) (hs : ':' ∉ s.data) :
    secondColonComponent (A ++ ":" ++ s) = s := by
  have hd : (A ++ ":" ++ s).data = A.data ++ ':' :: s.data := by
    simp [String.data_append]
  unfold secondColonComponent
  rw [hd, afterSep_append ':' A.data s.data hA]
  simp only [beforeSep_of_not_mem ':' s.data hs]

/-- Two events deriving the same external id leave one Consumer. -/
theorem getConsumers_pair_same_id (E1 E2 : CloudtrailEvent) (c1 c2 : Consumer)
    (h1 : extractConsumerFromEvent E1 = .ok c1) (h2 : extractConsumerFromEvent E2 = .ok c2)
    (hid : c1.ExternalId = c2.ExternalId) :
    getConsumers [E1, E2] =
      [if c2.AccessedResourceAt > c1.AccessedResourceAt then c2 else c1] := by
  by_cases hgt : c2.AccessedResourceAt > c1.AccessedResourceAt
  · simp [getConsumers, getConsumersStep, h1, h2, mapLookup, mapInsert, hid, hgt]
  · simp [getConsumers, getConsumersStep, h1, h2, mapLookup, mapInsert, hid, hgt]

theorem derivedConsumer_role_id (e : CloudtrailEvent) (A s : String)
    (ht : e.UserIdentity.Type_ = "AssumedRole")
    (hp : e.UserIdentity.PrincipalId = A ++ ":" ++ s)
    (hA : ':' ∉ A.data) (hs : ':' ∉ s.data) :
    (derivedConsumer e).ExternalId = s := by
  have hr : IsRoleType e.UserIdentity := Or.inl ht
  simp only [derivedConsumer, hr, if_true, hp, secondColonComponent_compound A s hA hs]

theorem extract_with_context (e : CloudtrailEvent)
    (hc : e.UserIdentity.SessionContext ≠ none) :
    extractConsumerFromEvent e = .ok (derivedConsumer e) := by
  rw [extractConsumerFromEvent_eq, if_neg (fun h => hc h.2)]

theorem extract_direct (e : CloudtrailEvent) (hd : ¬ IsRoleType e.UserIdentity) :
    extractConsumerFromEvent e = .ok (derivedConsumer e) := by
  rw [extractConsumerFromEvent_eq, if_neg (fun h => hd h.1)]

/-- C14: the dedup key of an assumed-role event is the session-name component
only.  Two events of type `AssumedRole` with session context and principal ids
`A:s` and `B:s` leave a single Consumer, with external id `s`, whatever `A` and
`B` are; and an assumed-role event with principal id `A:s` merges with a
direct-identity event whose principal id is `s`, in either order. -/
theorem C14_session_name_is_dedup_key (A B s : String) (E1 E2 E3 : CloudtrailEvent)
    (hA : ':' ∉ A.data) (hB : ':' ∉ B.data) (hs : ':' ∉ s.data)
    (t1 : E1.UserIdentity.Type_ = "AssumedRole") (x1 : E1.UserIdentity.SessionContext ≠ none)
    (p1 : E1.UserIdentity.PrincipalId = A ++ ":" ++ s)
    (t2 : E2.UserIdentity.Type_ = "AssumedRole") (x2 : E2.UserIdentity.SessionContext ≠ none)
    (p2 : E2.UserIdentity.PrincipalId = B ++ ":" ++ s)
    (t3 : ¬ IsRoleType E3.UserIdentity) (p3 : E3.UserIdentity.PrincipalId = s) :
    (∃ c, getConsumers [E1, E2] = [c] ∧ c.ExternalId = s) ∧
    (∃ c, getConsumers [E1, E3] = [c] ∧ c.ExternalId = s) ∧
    (∃ c, getConsumers [E3, E1] = [c] ∧ c.ExternalId = s) := by
  have e1 := extract_with_context E1 x1
  have e2 := extract_with_context E2 x2
  have e3 := extract_direct E3 t3
  have i1 : (derivedConsumer E1).ExternalId = s := derivedConsumer_role_id E1 A s t1 p1 hA hs
  have i2 : (derivedConsumer E2).ExternalId = s := derivedConsumer_role_id E2 B s t2 p2 hB hs
  have i3 : (derivedConsumer E3).ExternalId = s := by
    simp only [derivedConsumer, t3, if_false, p3]
  refine ⟨⟨_, getConsumers_pair_same_id E1 E2 _ _ e1 e2 (i1.trans i2.symm), ?_⟩,
    ⟨_, getConsumers_pair_same_id E1 E3 _ _ e1 e3 (i1.trans i3.symm), ?_⟩,
    ⟨_, getConsumers_pair_same_id E3 E1 _ _ e3 e1 (i3.trans i1.symm), ?_⟩⟩
  · split_ifs
    · exact i2
    · exact i1
  · split_ifs
    · exact i3
    · exact i1
  · split_ifs
    · exact i1
    · exact i3

theorem C14_session_name_is_dedup_key_witness :
    (∃ c, getConsumers [eventOf 1 (assumedRoleWithPrincipal "AROAFIRST:deploy") [],
        eventOf 2 (assumedRoleWithPrincipal "AROASECOND:deploy") []] = [c] ∧
      c.ExternalId = "deploy") ∧
    (∃ c, getConsumers [eventOf 1 (assumedRoleWithPrincipal "AROAFIRST:deploy") [],
        eventOf 3 (directWithPrincipal "deploy") []] = [c] ∧
      c.ExternalId = "deploy") ∧
    (∃ c, getConsumers [eventOf 3 (directWithPrincipal "deploy") [],
        eventOf 1 (assumedRoleWithPrincipal "AROAFIRST:deploy") []] = [c] ∧
      c.ExternalId = "deploy") :=
  C14_session_name_is_dedup_key "AROAFIRST" "AROASECOND" "deploy"
    (eventOf 1 (assumedRoleWithPrincipal "AROAFIRST:deploy") [])
    (eventOf 2 (assumedRoleWithPrincipal "AROASECOND:deploy") [])
    (eventOf 3 (directWithPrincipal "deploy") [])
    (by decide) (by decide) (by decide) rfl (by decide) (by decide) rfl (by decide) (by decide)
    (by decide) (by decide)

end TorchSecret
